import Mathlib

/-!
# Verification of the priority-expiry LRU cache (`lru-go`)

Shallow embedding of `src/main.go`.  Wall-clock instants are modelled as
`Int` (seconds); each public operation receives the current time `now`
explicitly (every `time.Now()` read inside one Go call is modelled as the
same instant).  Go's `container/heap` algorithms (`up`, `down`, `Fix`,
`Push`, `Pop`) are translated literally; the item arena (`Store`) carries
the mutable `Item` records that the table and both heap arrays reference
by integer handle, mirroring the Go pointer sharing.  Loops are embedded
as fuel-indexed structural recursions whose wrappers always supply enough
fuel (each loop iteration strictly decreases the corresponding measure,
exactly as in the Go code).
-/

set_option maxRecDepth 10000

namespace Lru

/-- The `Item` record from `src/main.go` (`key`, `value`, `priority`,
`access`, `expire`, `priorityIndex`, `expiryIndex`). -/
structure Item where
  key : String
  value : Int
  priority : Int
  access : Int
  expire : Int
  priorityIndex : Int
  expiryIndex : Int
  deriving DecidableEq, Repr

/-- The arena of `Item` records; a Go `*Item` is a `Nat` handle into it. -/
abbrev Store := List Item

def dummyItem : Item := ⟨"", 0, 0, 0, 0, 0, 0⟩

/-- Dereference an item handle (Go pointer dereference). -/
def getItem (s : Store) (i : Nat) : Item := s.getD i dummyItem

/-- Mutate the item behind a handle (Go writes through a pointer). -/
def setItem (s : Store) (i : Nat) (it : Item) : Store := s.set i it

/-- `Less` of the two heap types: `PriorityQueue.Less` compares priority,
then access time on ties; `ExpiryQueue.Less` compares expire time. -/
def qLess (isPrio : Bool) (a b : Item) : Bool :=
  if isPrio then
    if a.priority = b.priority then decide (a.access < b.access)
    else decide (a.priority < b.priority)
  else decide (a.expire < b.expire)

/-- Write the index bookkeeping field of an item for the given heap. -/
def qSetIdx (isPrio : Bool) (it : Item) (n : Int) : Item :=
  if isPrio then { it with priorityIndex := n } else { it with expiryIndex := n }

/-- Read the index bookkeeping field of an item for the given heap. -/
def qIdx (isPrio : Bool) (it : Item) : Int :=
  if isPrio then it.priorityIndex else it.expiryIndex

/-- `Swap` of both queue types: exchange the two slice slots, then store
each moved item's new position in its index field. -/
def hSwap (isPrio : Bool) (q : List Nat) (s : Store) (i j : Nat) :
    List Nat × Store :=
  let q' := (q.set i (q.getD j 0)).set j (q.getD i 0)
  let s1 := setItem s (q'.getD i 0) (qSetIdx isPrio (getItem s (q'.getD i 0)) i)
  let s2 := setItem s1 (q'.getD j 0) (qSetIdx isPrio (getItem s1 (q'.getD j 0)) j)
  (q', s2)

/-- `container/heap`'s `up` (sift up from position `j`); the fuel argument
only bounds the iteration count, `heapUp` supplies `j + 1` which always
suffices because the position strictly decreases. -/
def heapUpAux (isPrio : Bool) : Nat → List Nat → Store → Nat → List Nat × Store
  | 0, q, s, _ => (q, s)
  | fuel + 1, q, s, j =>
    if j = 0 then (q, s)
    else
      let i := (j - 1) / 2
      if qLess isPrio (getItem s (q.getD j 0)) (getItem s (q.getD i 0)) then
        let p := hSwap isPrio q s i j
        heapUpAux isPrio fuel p.1 p.2 i
      else (q, s)

def heapUp (isPrio : Bool) (q : List Nat) (s : Store) (j : Nat) :
    List Nat × Store :=
  heapUpAux isPrio (j + 1) q s j

/-- `container/heap`'s `down` (sift down from `i`, heap size `n`); returns
the final position as third component (Go returns `i > i0`).  The wrappers
supply fuel `n`, which suffices since the position strictly increases and
stays below `n`. -/
def heapDownAux (isPrio : Bool) :
    Nat → List Nat → Store → Nat → Nat → List Nat × Store × Nat
  | 0, q, s, i, _ => (q, s, i)
  | fuel + 1, q, s, i, n =>
    let j1 := 2 * i + 1
    if j1 < n then
      let j :=
        if j1 + 1 < n ∧ qLess isPrio (getItem s (q.getD (j1 + 1) 0))
            (getItem s (q.getD j1 0)) then j1 + 1
        else j1
      if qLess isPrio (getItem s (q.getD j 0)) (getItem s (q.getD i 0)) then
        let p := hSwap isPrio q s i j
        heapDownAux isPrio fuel p.1 p.2 j n
      else (q, s, i)
    else (q, s, i)

def heapDown (isPrio : Bool) (q : List Nat) (s : Store) (i n : Nat) :
    List Nat × Store × Nat :=
  heapDownAux isPrio n q s i n

/-- `heap.Fix(h, i)`: `if !down(h, i, h.Len()) { up(h, i) }`. -/
def heapFix (isPrio : Bool) (q : List Nat) (s : Store) (i : Nat) :
    List Nat × Store :=
  let r := heapDown isPrio q s i q.length
  if i < r.2.2 then (r.1, r.2.1) else heapUp isPrio r.1 r.2.1 i

/-- `heap.Push`: the queue's `Push` records the index `n` and appends,
then `up` from the last slot. -/
def heapPush (isPrio : Bool) (q : List Nat) (s : Store) (id : Nat) :
    List Nat × Store :=
  let n := q.length
  let s' := setItem s id (qSetIdx isPrio (getItem s id) n)
  heapUp isPrio (q ++ [id]) s' n

/-- `heap.Pop`: swap root and last, sift down within `n = len - 1`, then the
queue's `Pop` removes the last slot and records index `-1`. -/
def heapPop (isPrio : Bool) (q : List Nat) (s : Store) :
    List Nat × Store × Nat :=
  let n := q.length - 1
  let p := hSwap isPrio q s 0 n
  let r := heapDown isPrio p.1 p.2 0 n
  let id := r.1.getD n 0
  let s' := setItem r.2.1 id (qSetIdx isPrio (getItem r.2.1 id) (-1))
  (r.1.take n, s', id)

/-- Go map lookup on the key table (association list, first match). -/
def tblGet (t : List (String × Nat)) (k : String) : Option Nat :=
  (t.find? (fun p => p.1 == k)).map (fun p => p.2)

/-- Go map `delete`. -/
def tblDel (t : List (String × Nat)) (k : String) : List (String × Nat) :=
  t.filter (fun p => !(p.1 == k))

/-- Go map assignment `c.table[key] = &item`. -/
def tblSet (t : List (String × Nat)) (k : String) (id : Nat) :
    List (String × Nat) :=
  (k, id) :: tblDel t k

/-- The `Cache` record: capacity bound, key table and both heap arrays,
plus the item arena holding the shared `Item` records. -/
structure Cache where
  maxItems : Int
  table : List (String × Nat)
  priorityQ : List Nat
  expiryQ : List Nat
  store : Store
  deriving DecidableEq, Repr

/-- `NewCache`: empty table and heaps (`heap.Init` on empty slices is a
no-op). -/
def NewCache (maxItems : Int) : Cache :=
  ⟨maxItems, [], [], [], []⟩

/-- Phase 1 of `evictItems`: the expiry-driven loop.  Returns the cache and
whether the loop hit its `return` statement (capacity restored), as opposed
to `break`/falling through to phase 2.  Fuel is the expiry-queue length:
every iteration that continues pops one entry.  The source's defensive
`got == nil` break has no counterpart: heap slots never hold nil. -/
def evictExpiryAux (now : Int) : Nat → Cache → Cache × Bool
  | 0, c => (c, false)
  | fuel + 1, c =>
    if 0 < c.expiryQ.length then
      let got := getItem c.store (c.expiryQ.getD 0 0)
      match tblGet c.table got.key with
      | none =>
        let r := heapPop false c.expiryQ c.store
        evictExpiryAux now fuel { c with expiryQ := r.1, store := r.2.1 }
      | some tid =>
        let item := getItem c.store tid
        if now < item.expire then (c, false)
        else
          let r := heapPop false c.expiryQ c.store
          let c' := { c with expiryQ := r.1, store := r.2.1,
                             table := tblDel c.table item.key }
          if (c'.table.length : Int) ≤ c'.maxItems then (c', true)
          else evictExpiryAux now fuel c'
    else (c, false)

/-- Phase 2 of `evictItems`: the priority-driven loop.  Fuel is the
priority-queue length: every iteration pops one entry. -/
def evictPriorityAux : Nat → Cache → Cache
  | 0, c => c
  | fuel + 1, c =>
    if 0 < c.priorityQ.length then
      let r := heapPop true c.priorityQ c.store
      let got := getItem r.2.1 r.2.2
      let c1 := { c with priorityQ := r.1, store := r.2.1 }
      match tblGet c1.table got.key with
      | none => evictPriorityAux fuel c1
      | some tid =>
        let item := getItem c1.store tid
        let c2 := { c1 with table := tblDel c1.table item.key }
        if (c2.table.length : Int) ≤ c2.maxItems then c2
        else evictPriorityAux fuel c2
    else c

/-- `evictItems`: return immediately while within capacity, otherwise run
the expiry-driven loop and, unless it restored the bound by `return`, the
priority-driven loop. -/
def evictItems (c : Cache) (now : Int) : Cache :=
  if (c.table.length : Int) ≤ c.maxItems then c
  else
    let r := evictExpiryAux now c.expiryQ.length c
    if r.2 then r.1
    else evictPriorityAux r.1.priorityQ.length r.1

/-- `Cache.Get`: hit while `now` is strictly before `expire` refreshes
`access` and fixes the priority heap; an expired hit deletes the key
(lazy expiry) and, like a miss, yields `-1`. -/
def Get (c : Cache) (now : Int) (key : String) : Cache × Int :=
  match tblGet c.table key with
  | some tid =>
    let item := getItem c.store tid
    if now < item.expire then
      let s1 := setItem c.store tid { item with access := now }
      let r := heapFix true c.priorityQ s1 item.priorityIndex.toNat
      ({ c with priorityQ := r.1, store := r.2 }, item.value)
    else
      ({ c with table := tblDel c.table key }, -1)
  | none => (c, -1)

/-- `Cache.Set`: in-place update with priority-heap fix (and expiry-heap
fix only if the computed absolute expiry changed), or fresh insert pushed
onto both heaps; always followed by `evictItems`. -/
def Set (c : Cache) (now : Int) (key : String) (value priority ttl : Int) :
    Cache :=
  let accessTime := now
  let expireTime := accessTime + ttl
  match tblGet c.table key with
  | some tid =>
    let item := getItem c.store tid
    let item1 :=
      { item with value := value, priority := priority, access := accessTime }
    let s1 := setItem c.store tid item1
    let r1 := heapFix true c.priorityQ s1 item1.priorityIndex.toNat
    let c1 := { c with priorityQ := r1.1, store := r1.2 }
    let c2 :=
      if item1.expire ≠ expireTime then
        let item2 := { getItem c1.store tid with expire := expireTime }
        let s2 := setItem c1.store tid item2
        let r2 := heapFix false c1.expiryQ s2 item2.expiryIndex.toNat
        { c1 with expiryQ := r2.1, store := r2.2 }
      else c1
    evictItems c2 now
  | none =>
    let id := c.store.length
    let item : Item := { key := key, value := value, priority := priority,
                         access := accessTime, expire := expireTime,
                         priorityIndex := 0, expiryIndex := 0 }
    let c1 := { c with table := tblSet c.table key id,
                       store := c.store ++ [item] }
    let r1 := heapPush true c1.priorityQ c1.store id
    let r2 := heapPush false c1.expiryQ r1.2 id
    evictItems { c1 with priorityQ := r1.1, expiryQ := r2.1, store := r2.2 } now

/-- `Cache.SetMaxItems`: store the new bound, then evict. -/
def SetMaxItems (c : Cache) (now : Int) (maxItems : Int) : Cache :=
  evictItems { c with maxItems := maxItems } now

/-- One public operation of the cache, tagged with the wall-clock instant
at which it runs. -/
inductive Op where
  | set (now : Int) (key : String) (value priority ttl : Int)
  | get (now : Int) (key : String)
  | setMax (now : Int) (maxItems : Int)
  deriving DecidableEq, Repr

def applyOp (c : Cache) : Op → Cache
  | .set now k v p t => Set c now k v p t
  | .get now k => (Get c now k).1
  | .setMax now m => SetMaxItems c now m

/-- Run a sequence of public operations from `NewCache maxItems`. -/
def run (maxItems : Int) (ops : List Op) : Cache :=
  ops.foldl applyOp (NewCache maxItems)

/-! ## Item field algebra -/

/-- Zero out the given heap's index field, for comparing stores that may
differ only in that field. -/
def clearIdx (isPrio : Bool) (it : Item) : Item := qSetIdx isPrio it 0

/-- The non-bookkeeping payload of an item. -/
def coreOf (it : Item) : String × Int × Int × Int × Int :=
  (it.key, it.value, it.priority, it.access, it.expire)

/-! ## Invariants -/

/-- Index correctness of one heap array: every slot holds a valid arena
handle whose recorded index field equals the slot position (spec I2). -/
def IdxOk (isPrio : Bool) (q : List Nat) (s : Store) : Prop :=
  ∀ j, j < q.length →
    q.getD j 0 < s.length ∧ qIdx isPrio (getItem s (q.getD j 0)) = (j : Int)

/-- Table correctness: every table entry points at a valid arena item
carrying that key, and that item is present in both heap arrays. -/
def TableOk (c : Cache) : Prop :=
  ∀ p ∈ c.table, p.2 < c.store.length ∧ (getItem c.store p.2).key = p.1 ∧
    p.2 ∈ c.priorityQ ∧ p.2 ∈ c.expiryQ

/-- The reachable-state invariant of the cache. -/
def Inv (c : Cache) : Prop :=
  IdxOk true c.priorityQ c.store ∧ IdxOk false c.expiryQ c.store ∧ TableOk c

instance (b : Bool) (q : List Nat) (s : Store) : Decidable (IdxOk b q s) := by
  unfold IdxOk; infer_instance

instance (c : Cache) : Decidable (TableOk c) := by
  unfold TableOk; infer_instance

instance (c : Cache) : Decidable (Inv c) := by
  unfold Inv; infer_instance

/-- The store changed at most in the designated heap's index fields. -/
def ShadowEq (isPrio : Bool) (s s' : Store) : Prop :=
  s'.length = s.length ∧
  ∀ id, clearIdx isPrio (getItem s' id) = clearIdx isPrio (getItem s id)

/-- The store changed at most in index bookkeeping fields. -/
def CoreEq (s s' : Store) : Prop :=
  s'.length = s.length ∧ ∀ id, coreOf (getItem s' id) = coreOf (getItem s id)

/-! ## Sift lemmas -/

/-- What one heap operation does to its own heap: the handle list is
permuted, the store changes only in this heap's index fields, and index
correctness is maintained. -/
def HeapOk (b : Bool) (q : List Nat) (s : Store) (r : List Nat × Store) :
    Prop :=
  r.1.Perm q ∧ ShadowEq b s r.2 ∧ IdxOk b r.1 r.2

/-! ## Eviction lemmas -/

/-- Observable effect of one eviction pass: arena payload untouched,
capacity field untouched, and every surviving table binding existed
before with the same handle. -/
def EvictStep (c c' : Cache) : Prop :=
  CoreEq c.store c'.store ∧ c'.maxItems = c.maxItems ∧
  ∀ k id, tblGet c'.table k = some id → tblGet c.table k = some id

/-- The state `Set` builds in its insert branch, before eviction runs. -/
def setInsertState (c : Cache) (now : Int) (k : String)
    (v pr t : Int) : Cache :=
  let id := c.store.length
  let item : Item := { key := k, value := v, priority := pr, access := now,
                       expire := now + t, priorityIndex := 0, expiryIndex := 0 }
  let S0 := c.store ++ [item]
  let R1 := heapPush true c.priorityQ S0 id
  let R2 := heapPush false c.expiryQ R1.2 id
  { c with table := tblSet c.table k id, priorityQ := R1.1, expiryQ := R2.1,
           store := R2.2 }

/-- The state `Set` builds in its update branch, before eviction runs. -/
def setUpdState (c : Cache) (now : Int) (_k : String) (v pr t : Int)
    (tid : Nat) : Cache :=
  let item := getItem c.store tid
  let item1 := { item with value := v, priority := pr, access := now }
  let s1 := setItem c.store tid item1
  let r1 := heapFix true c.priorityQ s1 item1.priorityIndex.toNat
  let c1 := { c with priorityQ := r1.1, store := r1.2 }
  if item1.expire ≠ now + t then
    let item2 := { getItem c1.store tid with expire := now + t }
    let s2 := setItem c1.store tid item2
    let r2 := heapFix false c1.expiryQ s2 item2.expiryIndex.toNat
    { c1 with expiryQ := r2.1, store := r2.2 }
  else c1

/-! ## Generic list lemmas used by the heap proofs -/

theorem getD_set_eq {α : Type} (l : List α) (i : Nat) (a d : α)
    (h : i < l.length) : (l.set i a).getD i d = a := by
  rw [List.getD_eq_getElem?_getD, List.getElem?_set_self h]
  rfl

theorem getD_set_ne {α : Type} (l : List α) {i j : Nat} (a d : α)
    (h : i ≠ j) : (l.set i a).getD j d = l.getD j d := by
  rw [List.getD_eq_getElem?_getD, List.getElem?_set_ne h,
    ← List.getD_eq_getElem?_getD]

theorem getD_eq_get {α : Type} (l : List α) (d : α) {j : Nat}
    (h : j < l.length) : l.getD j d = l.get ⟨j, h⟩ := by
  rw [List.getD_eq_getElem l d h, List.get_eq_getElem]

theorem set_getD_self {α : Type} (l : List α) (i : Nat) (d : α)
    (h : i < l.length) : l.set i (l.getD i d) = l := by
  apply List.ext_getElem?
  intro n
  rcases eq_or_ne i n with rfl | hne
  · rw [List.getElem?_set_self h, List.getD_eq_getElem l d h,
      List.getElem?_eq_getElem h]
  · rw [List.getElem?_set_ne hne]

theorem count_set_aux {α : Type} [DecidableEq α] :
    ∀ (l : List α) (i : Nat) (a d : α), i < l.length → ∀ x : α,
    (l.set i a).count x + (if l.getD i d = x then 1 else 0)
      = l.count x + (if a = x then 1 else 0)
  | [], i, _, _, h, _ => by simp at h
  | b :: t, 0, a, d, _, x => by
    simp only [List.set, List.getD_cons_zero, List.count_cons, beq_iff_eq]
    split_ifs <;> omega
  | b :: t, i + 1, a, d, h, x => by
    have ih := count_set_aux t i a d (by simpa using h) x
    simp only [List.set_cons_succ, List.getD_cons_succ, List.count_cons,
      beq_iff_eq]
    split_ifs at ih ⊢ <;> omega

theorem set_swap_perm {α : Type} [DecidableEq α] (l : List α) (i j : Nat)
    (d : α) (hi : i < l.length) (hj : j < l.length) :
    ((l.set i (l.getD j d)).set j (l.getD i d)).Perm l := by
  rcases eq_or_ne i j with rfl | hne
  · rw [List.set_set, set_getD_self l i d hi]
  · apply List.perm_iff_count.mpr
    intro x
    have h1 := count_set_aux (l.set i (l.getD j d)) j (l.getD i d) d
      (by simpa using hj) x
    have h2 := count_set_aux l i (l.getD j d) d hi x
    rw [getD_set_ne _ _ _ hne] at h1
    split_ifs at h1 h2 <;> omega

theorem getD_take {α : Type} (l : List α) (n j : Nat) (d : α) (h : j < n) :
    (l.take n).getD j d = l.getD j d := by
  rw [List.getD_eq_getElem?_getD, List.getElem?_take, if_pos h,
    ← List.getD_eq_getElem?_getD]

theorem eq_take_append_last {α : Type} (l : List α) (n : Nat) (d : α)
    (h : l.length = n + 1) : l = l.take n ++ [l.getD n d] := by
  have hlen : (l.drop n).length = 1 := by
    rw [List.length_drop]; omega
  have hget : (l.drop n).getD 0 d = l.getD n d := by
    rw [List.getD_eq_getElem?_getD, List.getElem?_drop, Nat.add_zero,
      ← List.getD_eq_getElem?_getD]
  have hdrop : l.drop n = [l.getD n d] := by
    cases hd : l.drop n with
    | nil => rw [hd] at hlen; simp at hlen
    | cons a t =>
      rw [hd] at hlen hget
      cases t with
      | nil =>
        simp only [List.getD_cons_zero] at hget
        rw [hget]
      | cons b t' => simp at hlen
  conv_lhs => rw [← List.take_append_drop n l, hdrop]

theorem mem_iff_getD {α : Type} (l : List α) (x d : α) :
    x ∈ l ↔ ∃ j, j < l.length ∧ l.getD j d = x := by
  rw [List.mem_iff_get]
  constructor
  · rintro ⟨⟨j, hj⟩, rfl⟩
    exact ⟨j, hj, getD_eq_get l d hj⟩
  · rintro ⟨j, hj, hx⟩
    exact ⟨⟨j, hj⟩, by rw [← getD_eq_get l d hj, hx]⟩

theorem find?_filter_of_imp {α : Type} (p q : α → Bool)
    (h : ∀ a, p a = true → q a = true) :
    ∀ l : List α, (l.filter q).find? p = l.find? p
  | [] => rfl
  | a :: t => by
    cases hq : q a with
    | true =>
      rw [List.filter_cons_of_pos hq]
      cases hp : p a with
      | true => rw [List.find?_cons_of_pos _ hp, List.find?_cons_of_pos _ hp]
      | false =>
        rw [List.find?_cons_of_neg _ (by simp [hp]),
          List.find?_cons_of_neg _ (by simp [hp])]
        exact find?_filter_of_imp p q h t
    | false =>
      have hp : p a = false := by
        cases hpa : p a with
        | true => rw [h a hpa] at hq; cases hq
        | false => rfl
      rw [List.filter_cons_of_neg (by simp [hq]),
        List.find?_cons_of_neg _ (by simp [hp])]
      exact find?_filter_of_imp p q h t

theorem coreOf_qSetIdx (b : Bool) (it : Item) (n : Int) :
    coreOf (qSetIdx b it n) = coreOf it := by
  cases b <;> rfl

theorem clearIdx_qSetIdx (b : Bool) (it : Item) (n : Int) :
    clearIdx b (qSetIdx b it n) = clearIdx b it := by
  cases b <;> rfl

theorem qIdx_qSetIdx (b : Bool) (it : Item) (n : Int) :
    qIdx b (qSetIdx b it n) = n := by
  cases b <;> rfl

theorem qSetIdx_of_qIdx_eq (b : Bool) (it : Item) (n : Int)
    (h : qIdx b it = n) : qSetIdx b it n = it := by
  cases b <;> (cases it; simp [qIdx] at h; simp [qSetIdx, h])

theorem qIdx_other_clearIdx (b : Bool) (it : Item) :
    qIdx (!b) (clearIdx b it) = qIdx (!b) it := by
  cases b <;> rfl

theorem coreOf_clearIdx (b : Bool) (it : Item) :
    coreOf (clearIdx b it) = coreOf it :=
  coreOf_qSetIdx b it 0

theorem key_eq_of_coreOf_eq {it it' : Item} (h : coreOf it = coreOf it') :
    it.key = it'.key := congrArg Prod.fst h

/-! ## Store access lemmas -/

theorem length_setItem (s : Store) (i : Nat) (it : Item) :
    (setItem s i it).length = s.length := List.length_set s i it

theorem getItem_setItem_eq (s : Store) (i : Nat) (it : Item)
    (h : i < s.length) : getItem (setItem s i it) i = it :=
  getD_set_eq s i it dummyItem h

theorem getItem_setItem_ne (s : Store) {i j : Nat} (it : Item)
    (h : i ≠ j) : getItem (setItem s i it) j = getItem s j :=
  getD_set_ne s it dummyItem h

theorem getItem_setItem_self_or (s : Store) (i : Nat) (it : Item) :
    getItem (setItem s i it) i = if i < s.length then it else getItem s i := by
  split
  · exact getItem_setItem_eq s i it (by assumption)
  · have hlen : s.length ≤ i := by omega
    unfold getItem setItem
    rw [List.getD_eq_getElem?_getD, List.getD_eq_getElem?_getD,
      List.getElem?_eq_none (by simpa using hlen),
      List.getElem?_eq_none hlen]

theorem getItem_append (s s₂ : Store) (i : Nat) (h : i < s.length) :
    getItem (s ++ s₂) i = getItem s i := by
  unfold getItem
  rw [List.getD_eq_getElem?_getD, List.getD_eq_getElem?_getD,
    List.getElem?_append, if_pos h]

theorem getItem_append_self (s : Store) (it : Item) :
    getItem (s ++ [it]) s.length = it := by
  unfold getItem
  rw [List.getD_eq_getElem?_getD, List.getElem?_concat_length]
  rfl

theorem shadowEq_refl (b : Bool) (s : Store) : ShadowEq b s s :=
  ⟨rfl, fun _ => rfl⟩

theorem shadowEq_trans {b : Bool} {s₁ s₂ s₃ : Store}
    (h₁ : ShadowEq b s₁ s₂) (h₂ : ShadowEq b s₂ s₃) : ShadowEq b s₁ s₃ :=
  ⟨h₂.1.trans h₁.1, fun id => (h₂.2 id).trans (h₁.2 id)⟩

theorem coreEq_refl (s : Store) : CoreEq s s := ⟨rfl, fun _ => rfl⟩

theorem coreEq_trans {s₁ s₂ s₃ : Store}
    (h₁ : CoreEq s₁ s₂) (h₂ : CoreEq s₂ s₃) : CoreEq s₁ s₃ :=
  ⟨h₂.1.trans h₁.1, fun id => (h₂.2 id).trans (h₁.2 id)⟩

theorem ShadowEq.core {b : Bool} {s s' : Store} (h : ShadowEq b s s') :
    CoreEq s s' :=
  ⟨h.1, fun id => by
    have := congrArg coreOf (h.2 id)
    rwa [coreOf_clearIdx, coreOf_clearIdx] at this⟩

theorem ShadowEq.qIdx_other {b : Bool} {s s' : Store} (h : ShadowEq b s s')
    (id : Nat) : qIdx (!b) (getItem s' id) = qIdx (!b) (getItem s id) := by
  have := congrArg (qIdx (!b)) (h.2 id)
  rwa [qIdx_other_clearIdx, qIdx_other_clearIdx] at this

/-- A store differing only in the other heap's index fields preserves
index correctness of this heap. -/
theorem IdxOk.of_shadow_other {b : Bool} {q : List Nat} {s s' : Store}
    (h : ShadowEq (!b) s s') (hok : IdxOk b q s) : IdxOk b q s' := by
  intro j hj
  obtain ⟨h1, h2⟩ := hok j hj
  refine ⟨by rw [h.1]; exact h1, ?_⟩
  have hq := h.qIdx_other (q.getD j 0)
  rw [Bool.not_not] at hq
  rw [hq]
  exact h2

/-- Positions of an index-correct heap hold pairwise distinct handles. -/
theorem IdxOk.inj {b : Bool} {q : List Nat} {s : Store} (hok : IdxOk b q s)
    {p₁ p₂ : Nat} (h₁ : p₁ < q.length) (h₂ : p₂ < q.length)
    (heq : q.getD p₁ 0 = q.getD p₂ 0) : p₁ = p₂ := by
  have e₁ := (hok p₁ h₁).2
  have e₂ := (hok p₂ h₂).2
  rw [heq] at e₁
  rw [e₂] at e₁
  exact_mod_cast e₁.symm

theorem IdxOk.nodup {b : Bool} {q : List Nat} {s : Store}
    (hok : IdxOk b q s) : q.Nodup := by
  rw [List.nodup_iff_injective_get]
  rintro ⟨p₁, h₁⟩ ⟨p₂, h₂⟩ heq
  have : q.getD p₁ 0 = q.getD p₂ 0 := by
    rw [getD_eq_get q 0 h₁, getD_eq_get q 0 h₂, heq]
  exact Fin.ext (hok.inj h₁ h₂ this)

/-! ## `hSwap` lemmas -/

theorem hSwap_len_q (b : Bool) (q : List Nat) (s : Store) (i j : Nat) :
    (hSwap b q s i j).1.length = q.length := by
  simp [hSwap, List.length_set]

theorem hSwap_shadow (b : Bool) (q : List Nat) (s : Store) (i j : Nat) :
    ShadowEq b s (hSwap b q s i j).2 := by
  unfold hSwap
  have step : ∀ (s₀ : Store) (id : Nat) (n : Int),
      ShadowEq b s₀ (setItem s₀ id (qSetIdx b (getItem s₀ id) n)) := by
    intro s₀ id n
    refine ⟨length_setItem s₀ id _, fun id' => ?_⟩
    rcases eq_or_ne id id' with rfl | hne
    · rw [getItem_setItem_self_or]
      split
      · rw [clearIdx_qSetIdx]
      · rfl
    · rw [getItem_setItem_ne s₀ _ hne]
  exact shadowEq_trans (step s _ _) (step _ _ _)

theorem hSwap_perm (b : Bool) (q : List Nat) (s : Store) (i j : Nat)
    (hi : i < q.length) (hj : j < q.length) :
    (hSwap b q s i j).1.Perm q := by
  unfold hSwap
  exact set_swap_perm q i j 0 hi hj

theorem hSwap_self (b : Bool) (q : List Nat) (s : Store) (i : Nat)
    (hi : i < q.length) (hok : IdxOk b q s) : hSwap b q s i i = (q, s) := by
  have ha := hok i hi
  have hs1 : setItem s (q.getD i 0) (qSetIdx b (getItem s (q.getD i 0)) i)
      = s := by
    rw [qSetIdx_of_qIdx_eq b _ _ ha.2]
    exact set_getD_self s _ dummyItem ha.1
  unfold hSwap
  simp only [List.set_set, set_getD_self q i 0 hi, hs1]

theorem hSwap_idxOk (b : Bool) (q : List Nat) (s : Store) (i j : Nat)
    (hi : i < q.length) (hj : j < q.length) (hok : IdxOk b q s) :
    IdxOk b (hSwap b q s i j).1 (hSwap b q s i j).2 := by
  rcases eq_or_ne i j with rfl | hne
  · rw [hSwap_self b q s i hi hok]
    exact hok
  · have hai := hok i hi
    have haj := hok j hj
    have hids : q.getD i 0 ≠ q.getD j 0 := fun h => hne (hok.inj hi hj h)
    have hq'i : ((q.set i (q.getD j 0)).set j (q.getD i 0)).getD i 0
        = q.getD j 0 := by
      rw [getD_set_ne _ _ _ (Ne.symm hne)]
      exact getD_set_eq q i _ 0 hi
    have hq'j : ((q.set i (q.getD j 0)).set j (q.getD i 0)).getD j 0
        = q.getD i 0 :=
      getD_set_eq _ j _ 0 (by rw [List.length_set]; exact hj)
    unfold hSwap
    simp only [hq'i, hq'j]
    set A := q.getD i 0 with hA
    set B := q.getD j 0 with hB
    set s1 := setItem s B (qSetIdx b (getItem s B) i) with hs1def
    have hs1len : s1.length = s.length := length_setItem s B _
    have hs1A : getItem s1 A = getItem s A :=
      getItem_setItem_ne s _ (Ne.symm hids)
    set s2 := setItem s1 A (qSetIdx b (getItem s1 A) j) with hs2def
    have hs2len : s2.length = s.length := by
      rw [hs2def, length_setItem, hs1len]
    have hs2A : getItem s2 A = qSetIdx b (getItem s A) j := by
      rw [hs2def, getItem_setItem_eq s1 A _ (by rw [hs1len]; exact hai.1), hs1A]
    have hs2B : getItem s2 B = qSetIdx b (getItem s B) i := by
      rw [hs2def, getItem_setItem_ne s1 _ hids, hs1def,
        getItem_setItem_eq s B _ haj.1]
    have hs2other : ∀ cid, cid ≠ A → cid ≠ B → getItem s2 cid = getItem s cid := by
      intro cid hcA hcB
      rw [hs2def, getItem_setItem_ne s1 _ (Ne.symm hcA), hs1def,
        getItem_setItem_ne s _ (Ne.symm hcB)]
    intro p hp
    rw [List.length_set, List.length_set] at hp
    rcases eq_or_ne p j with rfl | hpj
    · rw [hq'j, hs2A]
      exact ⟨by rw [hs2len]; exact hai.1, qIdx_qSetIdx b _ _⟩
    · rcases eq_or_ne p i with rfl | hpi
      · rw [hq'i, hs2B]
        exact ⟨by rw [hs2len]; exact haj.1, qIdx_qSetIdx b _ _⟩
      · have hq'p : ((q.set i B).set j A).getD p 0 = q.getD p 0 := by
          rw [getD_set_ne _ _ _ (Ne.symm hpj), getD_set_ne _ _ _ (Ne.symm hpi)]
        have hcp := hok p hp
        have hcA : q.getD p 0 ≠ A := fun h => hpi (hok.inj hp hi h)
        have hcB : q.getD p 0 ≠ B := fun h => hpj (hok.inj hp hj h)
        rw [hq'p, hs2other _ hcA hcB]
        exact ⟨by rw [hs2len]; exact hcp.1, hcp.2⟩

theorem heapOk_base {b : Bool} {q : List Nat} {s : Store}
    (hok : IdxOk b q s) : HeapOk b q s (q, s) :=
  ⟨List.Perm.refl q, shadowEq_refl b s, hok⟩

theorem heapOk_comp {b : Bool} {q : List Nat} {s : Store}
    {r r' : List Nat × Store} (h : HeapOk b q s r)
    (h' : HeapOk b r.1 r.2 r') : HeapOk b q s r' :=
  ⟨h'.1.trans h.1, shadowEq_trans h.2.1 h'.2.1, h'.2.2⟩

theorem hSwap_ok (b : Bool) (q : List Nat) (s : Store) (i j : Nat)
    (hi : i < q.length) (hj : j < q.length) (hok : IdxOk b q s) :
    HeapOk b q s (hSwap b q s i j) :=
  ⟨hSwap_perm b q s i j hi hj, hSwap_shadow b q s i j,
   hSwap_idxOk b q s i j hi hj hok⟩

theorem shadow_setItem_qSetIdx (b : Bool) (s : Store) (id : Nat) (n : Int) :
    ShadowEq b s (setItem s id (qSetIdx b (getItem s id) n)) := by
  refine ⟨length_setItem s id _, fun id' => ?_⟩
  rcases eq_or_ne id id' with rfl | hne
  · rw [getItem_setItem_self_or]
    split
    · rw [clearIdx_qSetIdx]
    · rfl
  · rw [getItem_setItem_ne s _ hne]

theorem heapUpAux_ok (b : Bool) :
    ∀ (fuel : Nat) (q : List Nat) (s : Store) (j : Nat),
    j < q.length → IdxOk b q s → HeapOk b q s (heapUpAux b fuel q s j)
  | 0, q, s, _, _, hok => heapOk_base hok
  | fuel + 1, q, s, j, hj, hok => by
    simp only [heapUpAux]
    split
    · exact heapOk_base hok
    · split
      · rename_i hj0 _
        have hij : (j - 1) / 2 < j := by omega
        have hi : (j - 1) / 2 < q.length := lt_trans hij hj
        have hsw := hSwap_ok b q s ((j - 1) / 2) j hi hj hok
        have hlen := hSwap_len_q b q s ((j - 1) / 2) j
        have ih := heapUpAux_ok b fuel (hSwap b q s ((j - 1) / 2) j).1
          (hSwap b q s ((j - 1) / 2) j).2 ((j - 1) / 2)
          (by rw [hlen]; exact hi) hsw.2.2
        exact heapOk_comp hsw ih
      · exact heapOk_base hok

theorem heapUp_ok (b : Bool) (q : List Nat) (s : Store) (j : Nat)
    (hj : j < q.length) (hok : IdxOk b q s) :
    HeapOk b q s (heapUp b q s j) :=
  heapUpAux_ok b (j + 1) q s j hj hok

theorem heapDownAux_ok (b : Bool) :
    ∀ (fuel : Nat) (q : List Nat) (s : Store) (i n : Nat),
    n ≤ q.length → IdxOk b q s →
    HeapOk b q s ((heapDownAux b fuel q s i n).1,
      (heapDownAux b fuel q s i n).2.1) ∧
    ∀ m, n ≤ m → (heapDownAux b fuel q s i n).1.getD m 0 = q.getD m 0
  | 0, q, s, _, _, _, hok => ⟨heapOk_base hok, fun _ _ => rfl⟩
  | fuel + 1, q, s, i, n, hn, hok => by
    simp only [heapDownAux]
    by_cases h1 : 2 * i + 1 < n
    · rw [if_pos h1]
      set j := if 2 * i + 1 + 1 < n ∧
          qLess b (getItem s (q.getD (2 * i + 1 + 1) 0))
            (getItem s (q.getD (2 * i + 1) 0)) = true
        then 2 * i + 1 + 1 else 2 * i + 1 with hjdef
      have hjn : j < n := by
        rw [hjdef]
        split
        · omega
        · exact h1
      by_cases h2 : qLess b (getItem s (q.getD j 0))
          (getItem s (q.getD i 0)) = true
      · rw [if_pos h2]
        have hjq : j < q.length := lt_of_lt_of_le hjn hn
        have hiq : i < q.length := by omega
        have hsw := hSwap_ok b q s i j hiq hjq hok
        have hlen := hSwap_len_q b q s i j
        have ih := heapDownAux_ok b fuel (hSwap b q s i j).1
          (hSwap b q s i j).2 j n (by rw [hlen]; exact hn) hsw.2.2
        refine ⟨heapOk_comp hsw ih.1, fun m hm => ?_⟩
        rw [ih.2 m hm]
        show ((q.set i (q.getD j 0)).set j (q.getD i 0)).getD m 0 = q.getD m 0
        rw [getD_set_ne _ _ _ (by omega), getD_set_ne _ _ _ (by omega)]
      · rw [if_neg h2]
        exact ⟨heapOk_base hok, fun _ _ => rfl⟩
    · rw [if_neg h1]
      exact ⟨heapOk_base hok, fun _ _ => rfl⟩

theorem heapFix_ok (b : Bool) (q : List Nat) (s : Store) (i : Nat)
    (hi : i < q.length) (hok : IdxOk b q s) :
    HeapOk b q s (heapFix b q s i) := by
  simp only [heapFix, heapDown]
  have hd := heapDownAux_ok b q.length q s i q.length le_rfl hok
  split
  · exact hd.1
  · have hlen : (heapDownAux b q.length q s i q.length).1.length = q.length :=
      hd.1.1.length_eq
    exact heapOk_comp hd.1 (heapUp_ok b _ _ i (by rw [hlen]; exact hi) hd.1.2.2)

theorem getD_append_left {α : Type} (l l' : List α) (p : Nat) (d : α)
    (h : p < l.length) : (l ++ l').getD p d = l.getD p d := by
  rw [List.getD_eq_getElem?_getD, List.getD_eq_getElem?_getD,
    List.getElem?_append, if_pos h]

theorem getD_append_self {α : Type} (l : List α) (x d : α) :
    (l ++ [x]).getD l.length d = x := by
  rw [List.getD_eq_getElem?_getD, List.getElem?_concat_length]
  rfl

theorem heapPush_ok (b : Bool) (q : List Nat) (s : Store) (id : Nat)
    (hid : id < s.length) (hfresh : id ∉ q) (hok : IdxOk b q s) :
    HeapOk b (q ++ [id]) (setItem s id (qSetIdx b (getItem s id) q.length))
      (heapPush b q s id) ∧
    ShadowEq b s (heapPush b q s id).2 ∧
    (heapPush b q s id).1.Perm (q ++ [id]) := by
  have hshadow := shadow_setItem_qSetIdx b s id (q.length : Int)
  have hok' : IdxOk b (q ++ [id])
      (setItem s id (qSetIdx b (getItem s id) q.length)) := by
    intro p hp
    rw [List.length_append, List.length_singleton] at hp
    rcases Nat.lt_or_ge p q.length with hpq | hpq
    · rw [getD_append_left q [id] p 0 hpq]
      have hcid : q.getD p 0 ∈ q := (mem_iff_getD q _ 0).mpr ⟨p, hpq, rfl⟩
      have hne : id ≠ q.getD p 0 := fun h => hfresh (h ▸ hcid)
      have hcp := hok p hpq
      rw [getItem_setItem_ne s _ hne]
      exact ⟨by rw [length_setItem]; exact hcp.1, hcp.2⟩
    · have hpq' : p = q.length := by omega
      subst hpq'
      rw [getD_append_self q id 0]
      rw [getItem_setItem_eq s id _ hid]
      exact ⟨by rw [length_setItem]; exact hid, qIdx_qSetIdx b _ _⟩
  have hup := heapUp_ok b (q ++ [id])
    (setItem s id (qSetIdx b (getItem s id) q.length)) q.length
    (by rw [List.length_append, List.length_singleton]; omega) hok'
  have hres : heapPush b q s id
      = heapUp b (q ++ [id])
          (setItem s id (qSetIdx b (getItem s id) q.length)) q.length := rfl
  rw [hres]
  exact ⟨hup, shadowEq_trans hshadow hup.2.1, hup.1⟩

theorem heapPop_ok (b : Bool) (q : List Nat) (s : Store)
    (hq : 0 < q.length) (hok : IdxOk b q s) :
    (heapPop b q s).2.2 = q.getD 0 0 ∧
    (heapPop b q s).1.length = q.length - 1 ∧
    ((heapPop b q s).1 ++ [(heapPop b q s).2.2]).Perm q ∧
    ShadowEq b s (heapPop b q s).2.1 ∧
    IdxOk b (heapPop b q s).1 (heapPop b q s).2.1 := by
  have hn : q.length - 1 < q.length := by omega
  have hsw := hSwap_ok b q s 0 (q.length - 1) hq hn hok
  have hswlen := hSwap_len_q b q s 0 (q.length - 1)
  have hd := heapDownAux_ok b (q.length - 1) (hSwap b q s 0 (q.length - 1)).1
    (hSwap b q s 0 (q.length - 1)).2 0 (q.length - 1)
    (by rw [hswlen]; omega) hsw.2.2
  have hcomp := heapOk_comp hsw hd.1
  set q₂ := (heapDownAux b (q.length - 1) (hSwap b q s 0 (q.length - 1)).1
    (hSwap b q s 0 (q.length - 1)).2 0 (q.length - 1)).1 with hq₂def
  set s₂ := (heapDownAux b (q.length - 1) (hSwap b q s 0 (q.length - 1)).1
    (hSwap b q s 0 (q.length - 1)).2 0 (q.length - 1)).2.1 with hs₂def
  have hperm₂ : q₂.Perm q := hcomp.1
  have hshadow₂ : ShadowEq b s s₂ := hcomp.2.1
  have hidx₂ : IdxOk b q₂ s₂ := hcomp.2.2
  have hq₂len : q₂.length = q.length := hperm₂.length_eq
  have hswval : (hSwap b q s 0 (q.length - 1)).1.getD (q.length - 1) 0
      = q.getD 0 0 := by
    show ((q.set 0 (q.getD (q.length - 1) 0)).set (q.length - 1)
      (q.getD 0 0)).getD (q.length - 1) 0 = q.getD 0 0
    exact getD_set_eq _ _ _ 0 (by rw [List.length_set]; omega)
  have hid : q₂.getD (q.length - 1) 0 = q.getD 0 0 := by
    rw [hq₂def, hd.2 (q.length - 1) le_rfl, hswval]
  have hpop : heapPop b q s
      = (q₂.take (q.length - 1),
         setItem s₂ (q₂.getD (q.length - 1) 0)
           (qSetIdx b (getItem s₂ (q₂.getD (q.length - 1) 0)) (-1)),
         q₂.getD (q.length - 1) 0) := rfl
  have hdecomp : q₂ = q₂.take (q.length - 1) ++ [q₂.getD (q.length - 1) 0] :=
    eq_take_append_last q₂ (q.length - 1) 0 (by omega)
  have hs₃ := shadow_setItem_qSetIdx b s₂ (q₂.getD (q.length - 1) 0) (-1)
  refine ⟨by rw [hpop, hid], ?_, ?_, ?_, ?_⟩
  · rw [hpop]
    show (q₂.take (q.length - 1)).length = q.length - 1
    rw [List.length_take]
    omega
  · rw [hpop]
    show (q₂.take (q.length - 1) ++ [q₂.getD (q.length - 1) 0]).Perm q
    rw [← hdecomp]
    exact hperm₂
  · rw [hpop]
    exact shadowEq_trans hshadow₂ hs₃
  · rw [hpop]
    intro p hp
    show (q₂.take (q.length - 1)).getD p 0 < _ ∧ _
    rw [List.length_take] at hp
    have hpn : p < q.length - 1 := by omega
    rw [getD_take q₂ (q.length - 1) p 0 hpn]
    have hcp := hidx₂ p (by omega)
    have hcid : q₂.getD p 0 ≠ q₂.getD (q.length - 1) 0 := by
      intro h
      have := hidx₂.inj (by omega : p < q₂.length)
        (by omega : q.length - 1 < q₂.length) h
      omega
    rw [getItem_setItem_ne s₂ _ (Ne.symm hcid)]
    exact ⟨by rw [length_setItem]; exact hcp.1, hcp.2⟩

/-! ## Table lemmas -/

theorem tblGet_tblSet_self (t : List (String × Nat)) (k : String) (id : Nat) :
    tblGet (tblSet t k id) k = some id := by
  unfold tblGet tblSet
  rw [List.find?_cons_of_pos _ (by simp)]
  rfl

theorem tblGet_tblDel_self (t : List (String × Nat)) (k : String) :
    tblGet (tblDel t k) k = none := by
  unfold tblGet tblDel
  rw [List.find?_eq_none.mpr]
  · rfl
  · intro x hx
    have := (List.mem_filter.mp hx).2
    simpa using this

theorem tblGet_tblDel_ne (t : List (String × Nat)) {k k' : String}
    (h : k ≠ k') : tblGet (tblDel t k') k = tblGet t k := by
  unfold tblGet tblDel
  rw [find?_filter_of_imp]
  intro a ha
  have ha' : a.1 = k := by simpa using ha
  simp [ha', h]

theorem mem_of_tblGet {t : List (String × Nat)} {k : String} {id : Nat}
    (h : tblGet t k = some id) : (k, id) ∈ t := by
  unfold tblGet at h
  obtain ⟨x, hfind, hmap⟩ := Option.map_eq_some'.mp h
  have hx1 : x.1 = k := by simpa using List.find?_some hfind
  have hmem := List.mem_of_find?_eq_some hfind
  have hx : x = (k, id) := by
    cases x
    simp_all
  rwa [hx] at hmem

theorem key_ne_of_tblGet_none {t : List (String × Nat)} {k : String}
    (h : tblGet t k = none) : ∀ p ∈ t, p.1 ≠ k := by
  unfold tblGet at h
  have hfind := Option.map_eq_none'.mp h
  intro p hp
  have := List.find?_eq_none.mp hfind p hp
  simpa using this

theorem tblDel_eq_self_of_none {t : List (String × Nat)} {k : String}
    (h : tblGet t k = none) : tblDel t k = t := by
  apply List.filter_eq_self.mpr
  intro a ha
  have := key_ne_of_tblGet_none h a ha
  simpa using this

theorem mem_tblDel {t : List (String × Nat)} {k : String}
    {p : String × Nat} : p ∈ tblDel t k ↔ p ∈ t ∧ p.1 ≠ k := by
  unfold tblDel
  rw [List.mem_filter]
  simp

theorem length_tblDel_le (t : List (String × Nat)) (k : String) :
    (tblDel t k).length ≤ t.length :=
  List.length_filter_le _ t

theorem length_tblDel_lt :
    ∀ (t : List (String × Nat)) (k : String) (id : Nat),
    tblGet t k = some id → (tblDel t k).length < t.length
  | [], k, id, h => by simp [tblGet] at h
  | a :: t, k, id, h => by
    unfold tblDel
    by_cases ha : a.1 = k
    · rw [List.filter_cons_of_neg (by simp [ha])]
      exact Nat.lt_succ_of_le (length_tblDel_le t k)
    · rw [List.filter_cons_of_pos (by simp [ha])]
      have h' : tblGet t k = some id := by
        unfold tblGet at h ⊢
        rwa [List.find?_cons_of_neg _ (by simp [ha])] at h
      simpa using length_tblDel_lt t k id h'

theorem tblGet_of_tblGet_tblDel {t : List (String × Nat)}
    {k k' : String} {id : Nat} (h : tblGet (tblDel t k') k = some id) :
    tblGet t k = some id := by
  rcases eq_or_ne k k' with rfl | hne
  · rw [tblGet_tblDel_self] at h
    cases h
  · rwa [tblGet_tblDel_ne t hne] at h

theorem evictStep_base (c : Cache) : EvictStep c c :=
  ⟨coreEq_refl c.store, rfl, fun _ _ h => h⟩

theorem evictStep_comp {c₁ c₂ c₃ : Cache} (h : EvictStep c₁ c₂)
    (h' : EvictStep c₂ c₃) : EvictStep c₁ c₃ :=
  ⟨coreEq_trans h.1 h'.1, h'.2.1.trans h.2.1,
   fun k id hk => h.2.2 k id (h'.2.2 k id hk)⟩

/-- Popping the expiry-heap root preserves the invariant for any new table
that is a sub-table of the old one avoiding the root's key. -/
theorem expiry_pop_inv (c : Cache) (t' : List (String × Nat))
    (hq : 0 < c.expiryQ.length) (hInv : Inv c)
    (hsub : ∀ p ∈ t', p ∈ c.table)
    (hroot : ∀ p ∈ t', p.1 ≠ (getItem c.store (c.expiryQ.getD 0 0)).key) :
    Inv { c with expiryQ := (heapPop false c.expiryQ c.store).1,
                 store := (heapPop false c.expiryQ c.store).2.1,
                 table := t' } := by
  obtain ⟨hrootid, hlen, hperm, hshadow, hidx⟩ :=
    heapPop_ok false c.expiryQ c.store hq hInv.2.1
  refine ⟨hInv.1.of_shadow_other hshadow, hidx, ?_⟩
  intro p hp
  obtain ⟨hbound, hkey, hpq, heq⟩ := hInv.2.2 p (hsub p hp)
  refine ⟨?_, ?_, hpq, ?_⟩
  · show p.2 < (heapPop false c.expiryQ c.store).2.1.length
    rw [hshadow.1]
    exact hbound
  · show (getItem (heapPop false c.expiryQ c.store).2.1 p.2).key = p.1
    rw [key_eq_of_coreOf_eq (hshadow.core.2 p.2)]
    exact hkey
  · have hne : p.2 ≠ c.expiryQ.getD 0 0 := by
      intro h
      exact hroot p hp (by rw [← hkey, h])
    have hmem₂ : p.2 ∈ (heapPop false c.expiryQ c.store).1 ++
        [(heapPop false c.expiryQ c.store).2.2] := hperm.mem_iff.mpr heq
    rcases List.mem_append.mp hmem₂ with h | h
    · exact h
    · exfalso
      apply hne
      have : p.2 = (heapPop false c.expiryQ c.store).2.2 := by simpa using h
      rw [this, hrootid]

/-- Popping the priority-heap root preserves the invariant for any new
table that is a sub-table of the old one avoiding the root's key. -/
theorem prio_pop_inv (c : Cache) (t' : List (String × Nat))
    (hq : 0 < c.priorityQ.length) (hInv : Inv c)
    (hsub : ∀ p ∈ t', p ∈ c.table)
    (hroot : ∀ p ∈ t', p.1 ≠ (getItem c.store (c.priorityQ.getD 0 0)).key) :
    Inv { c with priorityQ := (heapPop true c.priorityQ c.store).1,
                 store := (heapPop true c.priorityQ c.store).2.1,
                 table := t' } := by
  obtain ⟨hrootid, hlen, hperm, hshadow, hidx⟩ :=
    heapPop_ok true c.priorityQ c.store hq hInv.1
  refine ⟨hidx, hInv.2.1.of_shadow_other hshadow, ?_⟩
  intro p hp
  obtain ⟨hbound, hkey, hpq, heq⟩ := hInv.2.2 p (hsub p hp)
  refine ⟨?_, ?_, ?_, heq⟩
  · show p.2 < (heapPop true c.priorityQ c.store).2.1.length
    rw [hshadow.1]
    exact hbound
  · show (getItem (heapPop true c.priorityQ c.store).2.1 p.2).key = p.1
    rw [key_eq_of_coreOf_eq (hshadow.core.2 p.2)]
    exact hkey
  · have hne : p.2 ≠ c.priorityQ.getD 0 0 := by
      intro h
      exact hroot p hp (by rw [← hkey, h])
    have hmem₂ : p.2 ∈ (heapPop true c.priorityQ c.store).1 ++
        [(heapPop true c.priorityQ c.store).2.2] := hperm.mem_iff.mpr hpq
    rcases List.mem_append.mp hmem₂ with h | h
    · exact h
    · exfalso
      apply hne
      have : p.2 = (heapPop true c.priorityQ c.store).2.2 := by simpa using h
      rw [this, hrootid]

theorem evictExpiryAux_ok :
    ∀ (fuel : Nat) (c : Cache) (now : Int),
    c.expiryQ.length ≤ fuel → Inv c →
    Inv (evictExpiryAux now fuel c).1 ∧
    EvictStep c (evictExpiryAux now fuel c).1 ∧
    (evictExpiryAux now fuel c).1.priorityQ = c.priorityQ ∧
    ((evictExpiryAux now fuel c).2 = true →
      ((evictExpiryAux now fuel c).1.table.length : Int)
        ≤ (evictExpiryAux now fuel c).1.maxItems)
  | 0, c, now, _, hInv =>
    ⟨hInv, evictStep_base c, rfl, fun h => Bool.noConfusion h⟩
  | fuel + 1, c, now, hfuel, hInv => by
    simp only [evictExpiryAux]
    by_cases hq : 0 < c.expiryQ.length
    · rw [if_pos hq]
      have hpop := heapPop_ok false c.expiryQ c.store hq hInv.2.1
      split
      · rename_i htbl
        have hInv₁ : Inv { c with expiryQ := (heapPop false c.expiryQ c.store).1, store := (heapPop false c.expiryQ c.store).2.1 } :=
          expiry_pop_inv c c.table hq hInv (fun _ hp => hp)
            (key_ne_of_tblGet_none htbl)
        have hflen : ({ c with expiryQ := (heapPop false c.expiryQ c.store).1, store := (heapPop false c.expiryQ c.store).2.1 } : Cache).expiryQ.length ≤ fuel := by
          show (heapPop false c.expiryQ c.store).1.length ≤ fuel
          rw [hpop.2.1]
          omega
        have ih := evictExpiryAux_ok fuel _ now hflen hInv₁
        have hstep₁ : EvictStep c { c with expiryQ := (heapPop false c.expiryQ c.store).1, store := (heapPop false c.expiryQ c.store).2.1 } :=
          ⟨hpop.2.2.2.1.core, rfl, fun _ _ h => h⟩
        exact ⟨ih.1, evictStep_comp hstep₁ ih.2.1, ih.2.2.1, ih.2.2.2⟩
      · rename_i tid htbl
        split
        · exact ⟨hInv, evictStep_base c, rfl, fun h => Bool.noConfusion h⟩
        · rename_i hexp
          have hkeyitem : (getItem c.store tid).key
              = (getItem c.store (c.expiryQ.getD 0 0)).key :=
            (hInv.2.2 _ (mem_of_tblGet htbl)).2.1
          have hInv' : Inv { c with expiryQ := (heapPop false c.expiryQ c.store).1, store := (heapPop false c.expiryQ c.store).2.1, table := tblDel c.table (getItem c.store tid).key } :=
            expiry_pop_inv c _ hq hInv (fun _ hp => (mem_tblDel.mp hp).1)
              (fun p hp => by
                have h2 := (mem_tblDel.mp hp).2
                rw [← hkeyitem]
                exact h2)
          have hstep : EvictStep c { c with expiryQ := (heapPop false c.expiryQ c.store).1, store := (heapPop false c.expiryQ c.store).2.1, table := tblDel c.table (getItem c.store tid).key } :=
            ⟨hpop.2.2.2.1.core, rfl, fun _ _ h => tblGet_of_tblGet_tblDel h⟩
          split
          · rename_i hcap
            exact ⟨hInv', hstep, rfl, fun _ => hcap⟩
          · rename_i hcap
            have hflen : ({ c with expiryQ := (heapPop false c.expiryQ c.store).1, store := (heapPop false c.expiryQ c.store).2.1, table := tblDel c.table (getItem c.store tid).key } : Cache).expiryQ.length ≤ fuel := by
              show (heapPop false c.expiryQ c.store).1.length ≤ fuel
              rw [hpop.2.1]
              omega
            have ih := evictExpiryAux_ok fuel _ now hflen hInv'
            exact ⟨ih.1, evictStep_comp hstep ih.2.1, ih.2.2.1, ih.2.2.2⟩
    · rw [if_neg hq]
      exact ⟨hInv, evictStep_base c, rfl, fun h => Bool.noConfusion h⟩

theorem evictPriorityAux_ok :
    ∀ (fuel : Nat) (c : Cache),
    c.priorityQ.length ≤ fuel → Inv c →
    Inv (evictPriorityAux fuel c) ∧
    EvictStep c (evictPriorityAux fuel c) ∧
    (evictPriorityAux fuel c).expiryQ = c.expiryQ ∧
    (((evictPriorityAux fuel c).table.length : Int)
        ≤ (evictPriorityAux fuel c).maxItems ∨
      (evictPriorityAux fuel c).table = [])
  | 0, c, hfuel, hInv => by
    refine ⟨hInv, evictStep_base c, rfl, Or.inr ?_⟩
    have hnil : c.priorityQ = [] := List.length_eq_zero.mp (by omega)
    apply List.eq_nil_iff_forall_not_mem.mpr
    intro p hp
    have := (hInv.2.2 p hp).2.2.1
    rw [hnil] at this
    exact absurd this (List.not_mem_nil p.2)
  | fuel + 1, c, hfuel, hInv => by
    simp only [evictPriorityAux]
    by_cases hq : 0 < c.priorityQ.length
    · rw [if_pos hq]
      have hpop := heapPop_ok true c.priorityQ c.store hq hInv.1
      have hgotkey : (getItem (heapPop true c.priorityQ c.store).2.1
          (heapPop true c.priorityQ c.store).2.2).key
          = (getItem c.store (c.priorityQ.getD 0 0)).key := by
        rw [hpop.1]
        exact key_eq_of_coreOf_eq (hpop.2.2.2.1.core.2 _)
      split
      · rename_i htbl
        rw [hgotkey] at htbl
        have hInv₁ : Inv { c with priorityQ := (heapPop true c.priorityQ c.store).1, store := (heapPop true c.priorityQ c.store).2.1 } :=
          prio_pop_inv c c.table hq hInv (fun _ hp => hp)
            (key_ne_of_tblGet_none htbl)
        have hflen : ({ c with priorityQ := (heapPop true c.priorityQ c.store).1, store := (heapPop true c.priorityQ c.store).2.1 } : Cache).priorityQ.length ≤ fuel := by
          show (heapPop true c.priorityQ c.store).1.length ≤ fuel
          rw [hpop.2.1]
          omega
        have ih := evictPriorityAux_ok fuel _ hflen hInv₁
        have hstep₁ : EvictStep c { c with priorityQ := (heapPop true c.priorityQ c.store).1, store := (heapPop true c.priorityQ c.store).2.1 } :=
          ⟨hpop.2.2.2.1.core, rfl, fun _ _ h => h⟩
        exact ⟨ih.1, evictStep_comp hstep₁ ih.2.1, ih.2.2.1, ih.2.2.2⟩
      · rename_i tid htbl
        rw [hgotkey] at htbl
        have hkeyitem' : (getItem (heapPop true c.priorityQ c.store).2.1
            tid).key = (getItem c.store tid).key :=
          key_eq_of_coreOf_eq (hpop.2.2.2.1.core.2 tid)
        have hkeyitem : (getItem c.store tid).key
            = (getItem c.store (c.priorityQ.getD 0 0)).key :=
          (hInv.2.2 _ (mem_of_tblGet htbl)).2.1
        have hInv' : Inv { c with priorityQ := (heapPop true c.priorityQ c.store).1, store := (heapPop true c.priorityQ c.store).2.1, table := tblDel c.table (getItem (heapPop true c.priorityQ c.store).2.1 tid).key } :=
          prio_pop_inv c _ hq hInv (fun _ hp => (mem_tblDel.mp hp).1)
            (fun p hp => by
              have h2 := (mem_tblDel.mp hp).2
              rw [hkeyitem', hkeyitem] at h2
              exact h2)
        have hstep : EvictStep c { c with priorityQ := (heapPop true c.priorityQ c.store).1, store := (heapPop true c.priorityQ c.store).2.1, table := tblDel c.table (getItem (heapPop true c.priorityQ c.store).2.1 tid).key } :=
          ⟨hpop.2.2.2.1.core, rfl, fun _ _ h => tblGet_of_tblGet_tblDel h⟩
        split
        · rename_i hcap
          exact ⟨hInv', hstep, rfl, Or.inl hcap⟩
        · rename_i hcap
          have hflen : ({ c with priorityQ := (heapPop true c.priorityQ c.store).1, store := (heapPop true c.priorityQ c.store).2.1, table := tblDel c.table (getItem (heapPop true c.priorityQ c.store).2.1 tid).key } : Cache).priorityQ.length ≤ fuel := by
            show (heapPop true c.priorityQ c.store).1.length ≤ fuel
            rw [hpop.2.1]
            omega
          have ih := evictPriorityAux_ok fuel _ hflen hInv'
          exact ⟨ih.1, evictStep_comp hstep ih.2.1, ih.2.2.1, ih.2.2.2⟩
    · rw [if_neg hq]
      refine ⟨hInv, evictStep_base c, rfl, Or.inr ?_⟩
      have hnil : c.priorityQ = [] := List.length_eq_zero.mp (by omega)
      apply List.eq_nil_iff_forall_not_mem.mpr
      intro p hp
      have := (hInv.2.2 p hp).2.2.1
      rw [hnil] at this
      exact absurd this (List.not_mem_nil p.2)

theorem evictItems_ok (c : Cache) (now : Int) (hInv : Inv c) :
    Inv (evictItems c now) ∧ EvictStep c (evictItems c now) ∧
    ((evictItems c now).table.length : Int) ≤ max 0 (evictItems c now).maxItems := by
  simp only [evictItems]
  by_cases htop : (c.table.length : Int) ≤ c.maxItems
  · rw [if_pos htop]
    exact ⟨hInv, evictStep_base c, le_trans htop (le_max_right 0 c.maxItems)⟩
  · rw [if_neg htop]
    have h1 := evictExpiryAux_ok c.expiryQ.length c now le_rfl hInv
    by_cases hdone : (evictExpiryAux now c.expiryQ.length c).2 = true
    · rw [if_pos hdone]
      exact ⟨h1.1, h1.2.1, le_trans (h1.2.2.2 hdone) (le_max_right _ _)⟩
    · rw [if_neg hdone]
      have h2 := evictPriorityAux_ok
        (evictExpiryAux now c.expiryQ.length c).1.priorityQ.length
        (evictExpiryAux now c.expiryQ.length c).1 le_rfl h1.1
      refine ⟨h2.1, evictStep_comp h1.2.1 h2.2.1, ?_⟩
      rcases h2.2.2.2 with hb | hempty
      · exact le_trans hb (le_max_right _ _)
      · rw [hempty]
        simp [le_max_left]

/-! ## Operation-level invariant preservation -/

/-- Updating an item in place without touching its key or its index
bookkeeping preserves the invariant. -/
theorem inv_setItem (c : Cache) (tid : Nat) (it' : Item) (hInv : Inv c)
    (hp : it'.priorityIndex = (getItem c.store tid).priorityIndex)
    (he : it'.expiryIndex = (getItem c.store tid).expiryIndex)
    (hk : it'.key = (getItem c.store tid).key) :
    Inv { c with store := setItem c.store tid it' } := by
  have hqidx : ∀ b, qIdx b it' = qIdx b (getItem c.store tid) := by
    intro b
    cases b
    · exact he
    · exact hp
  have hstep : ∀ b (q : List Nat), IdxOk b q c.store →
      IdxOk b q (setItem c.store tid it') := by
    intro b q hok j hj
    obtain ⟨h1, h2⟩ := hok j hj
    refine ⟨by rw [length_setItem]; exact h1, ?_⟩
    rcases eq_or_ne tid (q.getD j 0) with heq | hne
    · rw [← heq] at h2 ⊢
      rw [getItem_setItem_self_or]
      split
      · rw [hqidx b]
        exact h2
      · exact h2
    · rw [getItem_setItem_ne c.store _ hne]
      exact h2
  refine ⟨hstep true _ hInv.1, hstep false _ hInv.2.1, ?_⟩
  intro p hpmem
  obtain ⟨h1, h2, h3, h4⟩ := hInv.2.2 p hpmem
  refine ⟨by rw [length_setItem]; exact h1, ?_, h3, h4⟩
  rcases eq_or_ne tid p.2 with heq | hne
  · rw [← heq] at h2 ⊢
    rw [getItem_setItem_self_or]
    split
    · rw [hk]
      exact h2
    · exact h2
  · rw [getItem_setItem_ne c.store _ hne]
    exact h2

theorem not_mem_of_idxOk_bound {b : Bool} {q : List Nat} {s : Store}
    (hok : IdxOk b q s) : s.length ∉ q := by
  intro h
  obtain ⟨j, hj, hje⟩ := (mem_iff_getD q _ 0).mp h
  have := (hok j hj).1
  rw [hje] at this
  omega

theorem IdxOk.append {b : Bool} {q : List Nat} {s : Store} (x : Item)
    (hok : IdxOk b q s) : IdxOk b q (s ++ [x]) := by
  intro j hj
  obtain ⟨h1, h2⟩ := hok j hj
  refine ⟨?_, ?_⟩
  · rw [List.length_append]
    exact lt_of_lt_of_le h1 (Nat.le_add_right _ _)
  · rw [getItem_append s [x] _ h1]
    exact h2

/-- Fixing the priority heap at a valid position preserves the invariant. -/
theorem inv_fix_prio (c : Cache) (i : Nat) (hi : i < c.priorityQ.length)
    (hInv : Inv c) :
    Inv { c with priorityQ := (heapFix true c.priorityQ c.store i).1,
                 store := (heapFix true c.priorityQ c.store i).2 } ∧
    ShadowEq true c.store (heapFix true c.priorityQ c.store i).2 ∧
    (heapFix true c.priorityQ c.store i).1.Perm c.priorityQ := by
  have h := heapFix_ok true c.priorityQ c.store i hi hInv.1
  refine ⟨⟨h.2.2, hInv.2.1.of_shadow_other h.2.1, ?_⟩, h.2.1, h.1⟩
  intro p hp
  obtain ⟨hb, hk, hpq, heq⟩ := hInv.2.2 p hp
  exact ⟨by rw [h.2.1.1]; exact hb,
    by rw [key_eq_of_coreOf_eq (h.2.1.core.2 p.2)]; exact hk,
    h.1.mem_iff.mpr hpq, heq⟩

/-- Fixing the expiry heap at a valid position preserves the invariant. -/
theorem inv_fix_exp (c : Cache) (i : Nat) (hi : i < c.expiryQ.length)
    (hInv : Inv c) :
    Inv { c with expiryQ := (heapFix false c.expiryQ c.store i).1,
                 store := (heapFix false c.expiryQ c.store i).2 } ∧
    ShadowEq false c.store (heapFix false c.expiryQ c.store i).2 ∧
    (heapFix false c.expiryQ c.store i).1.Perm c.expiryQ := by
  have h := heapFix_ok false c.expiryQ c.store i hi hInv.2.1
  refine ⟨⟨hInv.1.of_shadow_other h.2.1, h.2.2, ?_⟩, h.2.1, h.1⟩
  intro p hp
  obtain ⟨hb, hk, hpq, heq⟩ := hInv.2.2 p hp
  exact ⟨by rw [h.2.1.1]; exact hb,
    by rw [key_eq_of_coreOf_eq (h.2.1.core.2 p.2)]; exact hk,
    hpq, h.1.mem_iff.mpr heq⟩

theorem Get_ok (c : Cache) (now : Int) (k : String) (hInv : Inv c) :
    Inv (Get c now k).1 := by
  rcases htbl : tblGet c.table k with _ | tid
  · have hres : (Get c now k).1 = c := by simp [Get, htbl]
    rw [hres]
    exact hInv
  · obtain ⟨hbound, hkey, hpqmem, heqmem⟩ := hInv.2.2 (k, tid) (mem_of_tblGet htbl)
    by_cases hexp : now < (getItem c.store tid).expire
    · have hres : (Get c now k).1 = { c with priorityQ := (heapFix true c.priorityQ (setItem c.store tid { getItem c.store tid with access := now }) (getItem c.store tid).priorityIndex.toNat).1, store := (heapFix true c.priorityQ (setItem c.store tid { getItem c.store tid with access := now }) (getItem c.store tid).priorityIndex.toNat).2 } := by
        simp [Get, htbl, hexp]
      obtain ⟨j, hj, hjd⟩ := (mem_iff_getD c.priorityQ tid 0).mp hpqmem
      have hpidx : (getItem c.store tid).priorityIndex = (j : Int) := by
        have h2 := (hInv.1 j hj).2
        rw [hjd] at h2
        exact h2
      have htoNat : (getItem c.store tid).priorityIndex.toNat = j := by
        rw [hpidx]
        exact Int.toNat_natCast j
      have hInv₁ : Inv { c with store := setItem c.store tid { getItem c.store tid with access := now } } :=
        inv_setItem c tid _ hInv rfl rfl rfl
      have hfix := inv_fix_prio
        { c with store := setItem c.store tid { getItem c.store tid with access := now } }
        ((getItem c.store tid).priorityIndex.toNat)
        (by show (getItem c.store tid).priorityIndex.toNat < c.priorityQ.length
            rw [htoNat]
            exact hj)
        hInv₁
      rw [hres]
      exact hfix.1
    · have hres : (Get c now k).1 = { c with table := tblDel c.table k } := by
        simp [Get, htbl, hexp]
      rw [hres]
      exact ⟨hInv.1, hInv.2.1, fun p hp => hInv.2.2 p (mem_tblDel.mp hp).1⟩

theorem Set_eq_insert (c : Cache) (now : Int) (k : String) (v pr t : Int)
    (htbl : tblGet c.table k = none) :
    Set c now k v pr t = evictItems (setInsertState c now k v pr t) now := by
  simp only [Set, setInsertState, htbl]

theorem setInsertState_inv (c : Cache) (now : Int) (k : String)
    (v pr t : Int) (hInv : Inv c) :
    Inv (setInsertState c now k v pr t) ∧
    (setInsertState c now k v pr t).maxItems = c.maxItems ∧
    (setInsertState c now k v pr t).table = tblSet c.table k c.store.length ∧
    coreOf (getItem (setInsertState c now k v pr t).store c.store.length)
      = (k, v, pr, now, now + t) := by
  simp only [setInsertState]
  set item : Item := { key := k, value := v, priority := pr, access := now, expire := now + t, priorityIndex := 0, expiryIndex := 0 } with hitem
  set id := c.store.length with hid
  set S0 := c.store ++ [item] with hS0
  set R1 := heapPush true c.priorityQ S0 id with hR1
  set R2 := heapPush false c.expiryQ R1.2 id with hR2
  have hIdxP : IdxOk true c.priorityQ S0 := hInv.1.append item
  have hIdxE0 : IdxOk false c.expiryQ S0 := hInv.2.1.append item
  have hidlt : id < S0.length := by
    rw [hS0, List.length_append, List.length_singleton, hid]
    omega
  have hfreshP : id ∉ c.priorityQ := by
    rw [hid]
    exact not_mem_of_idxOk_bound hInv.1
  have hfreshE : id ∉ c.expiryQ := by
    rw [hid]
    exact not_mem_of_idxOk_bound hInv.2.1
  have hpush1 := heapPush_ok true c.priorityQ S0 id hidlt hfreshP hIdxP
  have hIdxE1 : IdxOk false c.expiryQ R1.2 :=
    hIdxE0.of_shadow_other hpush1.2.1
  have hidlt2 : id < R1.2.length := by
    rw [hR1, hpush1.2.1.1]
    exact hidlt
  have hpush2 := heapPush_ok false c.expiryQ R1.2 id hidlt2 hfreshE hIdxE1
  have hIdxPfinal : IdxOk true R1.1 R2.2 :=
    hpush1.1.2.2.of_shadow_other hpush2.2.1
  have hIdxEfinal : IdxOk false R2.1 R2.2 := hpush2.1.2.2
  have hgetS0 : getItem S0 id = item := by
    rw [hS0, hid]
    exact getItem_append_self c.store item
  have hcore_id : coreOf (getItem R2.2 id) = coreOf item := by
    rw [hR2, hpush2.2.1.core.2 id, hR1, hpush1.2.1.core.2 id, hgetS0]
  have hcore_p : ∀ pid, pid < c.store.length →
      coreOf (getItem R2.2 pid) = coreOf (getItem c.store pid) := by
    intro pid hpid
    rw [hR2, hpush2.2.1.core.2 pid, hR1, hpush1.2.1.core.2 pid, hS0,
      getItem_append c.store [item] pid hpid]
  have hlenfinal : R2.2.length = S0.length := by
    rw [hR2, hpush2.2.1.1, hR1, hpush1.2.1.1]
  have hmemP : ∀ x, x ∈ c.priorityQ ++ [id] → x ∈ R1.1 := fun x hx =>
    hpush1.2.2.mem_iff.mpr hx
  have hmemE : ∀ x, x ∈ c.expiryQ ++ [id] → x ∈ R2.1 := fun x hx =>
    hpush2.2.2.mem_iff.mpr hx
  refine ⟨⟨hIdxPfinal, hIdxEfinal, ?_⟩, trivial, trivial, by rw [hcore_id, hitem]; rfl⟩
  intro p hp
  rcases List.mem_cons.mp hp with hpk | hp'
  · subst hpk
    refine ⟨?_, ?_, ?_, ?_⟩
    · show id < R2.2.length
      rw [hlenfinal]
      exact hidlt
    · show (getItem R2.2 id).key = k
      rw [key_eq_of_coreOf_eq hcore_id, hitem]
    · exact hmemP id (by simp)
    · exact hmemE id (by simp)
  · have hmem := (mem_tblDel.mp hp').1
    obtain ⟨h1, h2, h3, h4⟩ := hInv.2.2 p hmem
    refine ⟨?_, ?_, hmemP p.2 (List.mem_append_left _ h3),
      hmemE p.2 (List.mem_append_left _ h4)⟩
    · rw [hlenfinal, hS0, List.length_append]
      omega
    · rw [key_eq_of_coreOf_eq (hcore_p p.2 h1)]
      exact h2

theorem value_eq_of_coreOf_eq {it it' : Item} (h : coreOf it = coreOf it') :
    it.value = it'.value := congrArg (fun x => x.2.1) h

theorem priority_eq_of_coreOf_eq {it it' : Item}
    (h : coreOf it = coreOf it') : it.priority = it'.priority :=
  congrArg (fun x => x.2.2.1) h

theorem access_eq_of_coreOf_eq {it it' : Item} (h : coreOf it = coreOf it') :
    it.access = it'.access := congrArg (fun x => x.2.2.2.1) h

theorem expire_eq_of_coreOf_eq {it it' : Item} (h : coreOf it = coreOf it') :
    it.expire = it'.expire := congrArg (fun x => x.2.2.2.2) h

theorem Set_eq_update (c : Cache) (now : Int) (k : String) (v pr t : Int)
    (tid : Nat) (htbl : tblGet c.table k = some tid) :
    Set c now k v pr t = evictItems (setUpdState c now k v pr t tid) now := by
  simp only [Set, setUpdState, htbl]

theorem setUpdState_inv (c : Cache) (now : Int) (k : String) (v pr t : Int)
    (tid : Nat) (htbl : tblGet c.table k = some tid) (hInv : Inv c) :
    Inv (setUpdState c now k v pr t tid) ∧
    (setUpdState c now k v pr t tid).maxItems = c.maxItems ∧
    (setUpdState c now k v pr t tid).table = c.table ∧
    coreOf (getItem (setUpdState c now k v pr t tid).store tid)
      = (k, v, pr, now, now + t) := by
  obtain ⟨hbound, hkey, hpqmem, heqmem⟩ :=
    hInv.2.2 (k, tid) (mem_of_tblGet htbl)
  obtain ⟨j, hj, hjd⟩ := (mem_iff_getD c.priorityQ tid 0).mp hpqmem
  have hpidx : (getItem c.store tid).priorityIndex = (j : Int) := by
    have h2 := (hInv.1 j hj).2
    rw [hjd] at h2
    exact h2
  have htoN : (getItem c.store tid).priorityIndex.toNat = j := by
    rw [hpidx]
    exact Int.toNat_natCast j
  obtain ⟨j2, hj2, hjd2⟩ := (mem_iff_getD c.expiryQ tid 0).mp heqmem
  have heidx0 : (getItem c.store tid).expiryIndex = (j2 : Int) := by
    have h2 := (hInv.2.1 j2 hj2).2
    rw [hjd2] at h2
    exact h2
  simp only [setUpdState]
  set S1 := setItem c.store tid { getItem c.store tid with value := v, priority := pr, access := now } with hS1
  set R1 := heapFix true c.priorityQ S1 (getItem c.store tid).priorityIndex.toNat with hR1
  have hInv₁ : Inv { c with store := S1 } :=
    inv_setItem c tid _ hInv rfl rfl rfl
  have hfix1 := inv_fix_prio { c with store := S1 }
    ((getItem c.store tid).priorityIndex.toNat)
    (by show (getItem c.store tid).priorityIndex.toNat < c.priorityQ.length
        rw [htoN]
        exact hj)
    hInv₁
  have hInvC1 : Inv { c with priorityQ := R1.1, store := R1.2 } := hfix1.1
  have hshadow1 : ShadowEq true S1 R1.2 := hfix1.2.1
  have hS1len : S1.length = c.store.length := length_setItem _ _ _
  have hR1len : R1.2.length = c.store.length := by
    rw [hshadow1.1, hS1len]
  have hS1get : getItem S1 tid
      = { getItem c.store tid with value := v, priority := pr, access := now } := by
    rw [hS1]
    exact getItem_setItem_eq _ _ _ hbound
  have hcore1 : coreOf (getItem R1.2 tid) = coreOf (getItem S1 tid) :=
    hshadow1.core.2 tid
  have hc : coreOf (getItem R1.2 tid)
      = ((getItem c.store tid).key, v, pr, now, (getItem c.store tid).expire) := by
    rw [hcore1, hS1get]
    rfl
  have heidx1 : (getItem R1.2 tid).expiryIndex = (j2 : Int) := by
    have hq := hshadow1.qIdx_other tid
    have hq' : (getItem R1.2 tid).expiryIndex = (getItem S1 tid).expiryIndex := hq
    rw [hq', hS1get]
    exact heidx0
  by_cases hexp : (getItem c.store tid).expire ≠ now + t
  · rw [if_pos hexp]
    have hInv₂ : Inv { c with priorityQ := R1.1, store := setItem R1.2 tid { getItem R1.2 tid with expire := now + t } } :=
      inv_setItem { c with priorityQ := R1.1, store := R1.2 } tid _ hInvC1 rfl rfl rfl
    have htoN2 : ({ getItem R1.2 tid with expire := now + t } : Item).expiryIndex.toNat = j2 := by
      show (getItem R1.2 tid).expiryIndex.toNat = j2
      rw [heidx1]
      exact Int.toNat_natCast j2
    have hfix2 := inv_fix_exp { c with priorityQ := R1.1, store := setItem R1.2 tid { getItem R1.2 tid with expire := now + t } }
      (({ getItem R1.2 tid with expire := now + t } : Item).expiryIndex.toNat)
      (by show ({ getItem R1.2 tid with expire := now + t } : Item).expiryIndex.toNat < c.expiryQ.length
          rw [htoN2]
          exact hj2)
      hInv₂
    have hshadow2 : ShadowEq false (setItem R1.2 tid { getItem R1.2 tid with expire := now + t }) (heapFix false c.expiryQ (setItem R1.2 tid { getItem R1.2 tid with expire := now + t }) (({ getItem R1.2 tid with expire := now + t } : Item).expiryIndex.toNat)).2 := hfix2.2.1
    have hS2get : getItem (setItem R1.2 tid { getItem R1.2 tid with expire := now + t }) tid = { getItem R1.2 tid with expire := now + t } :=
      getItem_setItem_eq _ _ _ (by rw [hR1len]; exact hbound)
    refine ⟨hfix2.1, rfl, rfl, ?_⟩
    have hcfin : coreOf (getItem (heapFix false c.expiryQ (setItem R1.2 tid { getItem R1.2 tid with expire := now + t }) (({ getItem R1.2 tid with expire := now + t } : Item).expiryIndex.toNat)).2 tid) = coreOf ({ getItem R1.2 tid with expire := now + t } : Item) := by
      rw [hshadow2.core.2 tid, hS2get]
    have hck : (getItem R1.2 tid).key = (getItem c.store tid).key :=
      congrArg Prod.fst hc
    have hcv : (getItem R1.2 tid).value = v := congrArg (fun x => x.2.1) hc
    have hcpr : (getItem R1.2 tid).priority = pr :=
      congrArg (fun x => x.2.2.1) hc
    have hca : (getItem R1.2 tid).access = now :=
      congrArg (fun x => x.2.2.2.1) hc
    rw [hcfin]
    show ((getItem R1.2 tid).key, (getItem R1.2 tid).value,
      (getItem R1.2 tid).priority, (getItem R1.2 tid).access, now + t)
      = (k, v, pr, now, now + t)
    rw [hck, hcv, hcpr, hca, hkey]
  · rw [if_neg hexp]
    push_neg at hexp
    refine ⟨hInvC1, rfl, rfl, ?_⟩
    rw [hc, hkey, hexp]

theorem Set_ok (c : Cache) (now : Int) (k : String) (v pr t : Int)
    (hInv : Inv c) :
    Inv (Set c now k v pr t) ∧ (Set c now k v pr t).maxItems = c.maxItems ∧
    ((Set c now k v pr t).table.length : Int) ≤ max 0 c.maxItems := by
  rcases htbl : tblGet c.table k with _ | tid
  · rw [Set_eq_insert c now k v pr t htbl]
    have hpre := setInsertState_inv c now k v pr t hInv
    have hev := evictItems_ok _ now hpre.1
    refine ⟨hev.1, ?_, ?_⟩
    · rw [hev.2.1.2.1, hpre.2.1]
    · have hb := hev.2.2
      rwa [hev.2.1.2.1, hpre.2.1] at hb
  · rw [Set_eq_update c now k v pr t tid htbl]
    have hpre := setUpdState_inv c now k v pr t tid htbl hInv
    have hev := evictItems_ok _ now hpre.1
    refine ⟨hev.1, ?_, ?_⟩
    · rw [hev.2.1.2.1, hpre.2.1]
    · have hb := hev.2.2
      rwa [hev.2.1.2.1, hpre.2.1] at hb

theorem SetMaxItems_ok (c : Cache) (now m : Int) (hInv : Inv c) :
    Inv (SetMaxItems c now m) ∧ (SetMaxItems c now m).maxItems = m ∧
    ((SetMaxItems c now m).table.length : Int) ≤ max 0 m := by
  have hInv' : Inv { c with maxItems := m } := hInv
  have hev := evictItems_ok { c with maxItems := m } now hInv'
  refine ⟨hev.1, ?_, ?_⟩
  · show (evictItems { c with maxItems := m } now).maxItems = m
    rw [hev.2.1.2.1]
  · show ((evictItems { c with maxItems := m } now).table.length : Int)
      ≤ max 0 m
    have hb := hev.2.2
    rwa [hev.2.1.2.1] at hb

theorem applyOp_inv (c : Cache) (op : Op) (hInv : Inv c) :
    Inv (applyOp c op) := by
  cases op with
  | set now k v pr t => exact (Set_ok c now k v pr t hInv).1
  | get now k => exact Get_ok c now k hInv
  | setMax now m => exact (SetMaxItems_ok c now m hInv).1

theorem foldl_inv : ∀ (ops : List Op) (c : Cache), Inv c →
    Inv (ops.foldl applyOp c)
  | [], _, h => h
  | op :: ops, c, h => foldl_inv ops _ (applyOp_inv c op h)

theorem Inv_NewCache (m : Int) : Inv (NewCache m) := by
  refine ⟨?_, ?_, ?_⟩ <;> intro x hx <;> simp [NewCache] at hx

/-- The invariant holds in every reachable state. -/
theorem run_inv (m0 : Int) (ops : List Op) : Inv (run m0 ops) :=
  foldl_inv ops (NewCache m0) (Inv_NewCache m0)

/-! ## Supporting lemmas for the remaining claims -/

theorem evictItems_noop (c : Cache) (now : Int)
    (h : (c.table.length : Int) ≤ c.maxItems) : evictItems c now = c := by
  simp only [evictItems]
  rw [if_pos h]

theorem heapUpAux_len (b : Bool) :
    ∀ (fuel : Nat) (q : List Nat) (s : Store) (j : Nat),
    (heapUpAux b fuel q s j).1.length = q.length
  | 0, _, _, _ => rfl
  | fuel + 1, q, s, j => by
    simp only [heapUpAux]
    split
    · rfl
    · split
      · rw [heapUpAux_len b fuel _ _ _, hSwap_len_q]
      · rfl

theorem heapDownAux_len (b : Bool) :
    ∀ (fuel : Nat) (q : List Nat) (s : Store) (i n : Nat),
    (heapDownAux b fuel q s i n).1.length = q.length
  | 0, _, _, _, _ => rfl
  | fuel + 1, q, s, i, n => by
    simp only [heapDownAux]
    by_cases h1 : 2 * i + 1 < n
    · rw [if_pos h1]
      set j := if 2 * i + 1 + 1 < n ∧
          qLess b (getItem s (q.getD (2 * i + 1 + 1) 0))
            (getItem s (q.getD (2 * i + 1) 0)) = true
        then 2 * i + 1 + 1 else 2 * i + 1 with hj
      by_cases h2 : qLess b (getItem s (q.getD j 0))
          (getItem s (q.getD i 0)) = true
      · rw [if_pos h2, heapDownAux_len b fuel _ _ _ _, hSwap_len_q]
      · rw [if_neg h2]
    · rw [if_neg h1]

theorem heapFix_len (b : Bool) (q : List Nat) (s : Store) (i : Nat) :
    (heapFix b q s i).1.length = q.length := by
  simp only [heapFix, heapDown, heapUp]
  split
  · exact heapDownAux_len b q.length q s i q.length
  · rw [heapUpAux_len, heapDownAux_len]

theorem setUpdState_table (c : Cache) (now : Int) (_k : String)
    (v pr t : Int) (tid : Nat) :
    (setUpdState c now _k v pr t tid).table = c.table := by
  simp only [setUpdState]
  split <;> rfl

theorem setUpdState_maxItems (c : Cache) (now : Int) (_k : String)
    (v pr t : Int) (tid : Nat) :
    (setUpdState c now _k v pr t tid).maxItems = c.maxItems := by
  simp only [setUpdState]
  split <;> rfl

theorem setUpdState_pq_len (c : Cache) (now : Int) (_k : String)
    (v pr t : Int) (tid : Nat) :
    (setUpdState c now _k v pr t tid).priorityQ.length
      = c.priorityQ.length := by
  simp only [setUpdState]
  split <;> exact heapFix_len true _ _ _

theorem setUpdState_eq_len (c : Cache) (now : Int) (_k : String)
    (v pr t : Int) (tid : Nat) :
    (setUpdState c now _k v pr t tid).expiryQ.length
      = c.expiryQ.length := by
  simp only [setUpdState]
  split
  · exact heapFix_len false _ _ _
  · rfl

theorem setInsertState_table (c : Cache) (now : Int) (k : String)
    (v pr t : Int) :
    (setInsertState c now k v pr t).table
      = tblSet c.table k c.store.length := rfl

theorem setInsertState_maxItems (c : Cache) (now : Int) (k : String)
    (v pr t : Int) :
    (setInsertState c now k v pr t).maxItems = c.maxItems := rfl

/-- A key that survives a `Set` call maps to an item whose payload is
exactly what the call stored. -/
theorem Set_lookup (c : Cache) (now : Int) (k : String) (v pr t : Int)
    (hInv : Inv c) (tid : Nat)
    (h : tblGet (Set c now k v pr t).table k = some tid) :
    coreOf (getItem (Set c now k v pr t).store tid)
      = (k, v, pr, now, now + t) := by
  rcases htbl : tblGet c.table k with _ | tid0
  · rw [Set_eq_insert c now k v pr t htbl] at h ⊢
    have hpre := setInsertState_inv c now k v pr t hInv
    have hev := evictItems_ok _ now hpre.1
    have hpre_tbl := hev.2.1.2.2 k tid h
    rw [setInsertState_table, tblGet_tblSet_self] at hpre_tbl
    cases Option.some.inj hpre_tbl
    rw [hev.2.1.1.2]
    exact hpre.2.2.2
  · rw [Set_eq_update c now k v pr t tid0 htbl] at h ⊢
    have hpre := setUpdState_inv c now k v pr t tid0 htbl hInv
    have hev := evictItems_ok _ now hpre.1
    have hpre_tbl := hev.2.1.2.2 k tid h
    rw [setUpdState_table, htbl] at hpre_tbl
    cases Option.some.inj hpre_tbl
    rw [hev.2.1.1.2]
    exact hpre.2.2.2

/-! ## Claim theorems -/

/-- C1: for every sequence of `Set`/`Get`/`SetMaxItems` calls starting from
`NewCache`, after any `Set` or `SetMaxItems` call returns, the number of
keys in the table is at most `max 0 maxItems` (a non-positive capacity
leaves the table empty). -/
theorem claim_C1_capacity_bound (m0 : Int) (ops : List Op) (now : Int)
    (k : String) (v pr t m : Int) :
    (((run m0 (ops ++ [Op.set now k v pr t])).table.length : Int)
      ≤ max 0 (run m0 (ops ++ [Op.set now k v pr t])).maxItems) ∧
    (((run m0 (ops ++ [Op.setMax now m])).table.length : Int)
      ≤ max 0 (run m0 (ops ++ [Op.setMax now m])).maxItems) := by
  have hInv := run_inv m0 ops
  constructor
  · have hrun : run m0 (ops ++ [Op.set now k v pr t])
        = Set (run m0 ops) now k v pr t := by
      unfold run
      rw [List.foldl_append]
      rfl
    rw [hrun]
    have h := Set_ok (run m0 ops) now k v pr t hInv
    rw [h.2.1]
    exact h.2.2
  · have hrun : run m0 (ops ++ [Op.setMax now m])
        = SetMaxItems (run m0 ops) now m := by
      unfold run
      rw [List.foldl_append]
      rfl
    rw [hrun]
    have h := SetMaxItems_ok (run m0 ops) now m hInv
    rw [h.2.1]
    exact h.2.2

/-- C2: in every reachable state, every key in the table has its item
appear exactly once in the priority heap and exactly once in the expiry
heap, and the item's recorded `priorityIndex`/`expiryIndex` equal its
actual array position in the corresponding heap. -/
theorem claim_C2_heap_table_parity (m0 : Int) (ops : List Op) (k : String)
    (tid : Nat) (h : tblGet (run m0 ops).table k = some tid) :
    (run m0 ops).priorityQ.count tid = 1 ∧
    (run m0 ops).expiryQ.count tid = 1 ∧
    (∀ j, j < (run m0 ops).priorityQ.length →
      (run m0 ops).priorityQ.getD j 0 = tid →
      (getItem (run m0 ops).store tid).priorityIndex = (j : Int)) ∧
    (∀ j, j < (run m0 ops).expiryQ.length →
      (run m0 ops).expiryQ.getD j 0 = tid →
      (getItem (run m0 ops).store tid).expiryIndex = (j : Int)) := by
  have hInv := run_inv m0 ops
  obtain ⟨hb, hk, hpq, heq⟩ := hInv.2.2 (k, tid) (mem_of_tblGet h)
  refine ⟨List.count_eq_one_of_mem hInv.1.nodup hpq,
    List.count_eq_one_of_mem hInv.2.1.nodup heq, ?_, ?_⟩
  · intro j hj hjd
    have h2 := (hInv.1 j hj).2
    rw [hjd] at h2
    exact h2
  · intro j hj hjd
    have h2 := (hInv.2.1 j hj).2
    rw [hjd] at h2
    exact h2

/-- C2 witness: a concrete run with a live key, instantiating the parity
theorem. -/
theorem claim_C2_witness :
    tblGet (run 5 [Op.set 0 "A" 1 2 10]).table "A" = some 0 ∧
    ((run 5 [Op.set 0 "A" 1 2 10]).priorityQ.count 0 = 1 ∧
     (run 5 [Op.set 0 "A" 1 2 10]).expiryQ.count 0 = 1 ∧
     (∀ j, j < (run 5 [Op.set 0 "A" 1 2 10]).priorityQ.length →
       (run 5 [Op.set 0 "A" 1 2 10]).priorityQ.getD j 0 = 0 →
       (getItem (run 5 [Op.set 0 "A" 1 2 10]).store 0).priorityIndex
         = (j : Int)) ∧
     (∀ j, j < (run 5 [Op.set 0 "A" 1 2 10]).expiryQ.length →
       (run 5 [Op.set 0 "A" 1 2 10]).expiryQ.getD j 0 = 0 →
       (getItem (run 5 [Op.set 0 "A" 1 2 10]).store 0).expiryIndex
         = (j : Int))) :=
  ⟨by decide, claim_C2_heap_table_parity 5 [Op.set 0 "A" 1 2 10] "A" 0
    (by decide)⟩

/-- C3 (code bug): on this trace the expiry-heap root is a stale entry for
a key that was expired, lazily deleted by `Get`, and re-`Set` unexpired.
Phase 1 checks the table's current item for that key, sees it unexpired,
and stops — so the still-expired item `A` (expire 5 ≤ 6) survives while
the unexpired, lower-priority `B` is evicted by phase 2, although the
capacity shrink from 3 to 2 required evicting only one item.  This
contradicts the claimed expiry precedence. -/
theorem claim_C3_expiry_precedence_bug :
    (run 3 [Op.set 0 "x" 1 100 1, Op.set 0 "A" 2 100 5,
      Op.set 0 "B" 3 1 100, Op.get 2 "x", Op.set 2 "x" 4 100 100,
      Op.setMax 6 2]).table.length = 2 ∧
    tblGet (run 3 [Op.set 0 "x" 1 100 1, Op.set 0 "A" 2 100 5,
      Op.set 0 "B" 3 1 100, Op.get 2 "x", Op.set 2 "x" 4 100 100,
      Op.setMax 6 2]).table "B" = none ∧
    tblGet (run 3 [Op.set 0 "x" 1 100 1, Op.set 0 "A" 2 100 5,
      Op.set 0 "B" 3 1 100, Op.get 2 "x", Op.set 2 "x" 4 100 100,
      Op.setMax 6 2]).table "A" = some 1 ∧
    (getItem (run 3 [Op.set 0 "x" 1 100 1, Op.set 0 "A" 2 100 5,
      Op.set 0 "B" 3 1 100, Op.get 2 "x", Op.set 2 "x" 4 100 100,
      Op.setMax 6 2]).store 1).expire ≤ 6 ∧
    6 < (getItem (run 3 [Op.set 0 "x" 1 100 1, Op.set 0 "A" 2 100 5,
      Op.set 0 "B" 3 1 100, Op.get 2 "x", Op.set 2 "x" 4 100 100,
      Op.setMax 6 2]).store 2).expire ∧
    (getItem (run 3 [Op.set 0 "x" 1 100 1, Op.set 0 "A" 2 100 5,
      Op.set 0 "B" 3 1 100, Op.get 2 "x", Op.set 2 "x" 4 100 100,
      Op.setMax 6 2]).store 2).priority
      < (getItem (run 3 [Op.set 0 "x" 1 100 1, Op.set 0 "A" 2 100 5,
      Op.set 0 "B" 3 1 100, Op.get 2 "x", Op.set 2 "x" 4 100 100,
      Op.setMax 6 2]).store 1).priority := by decide

/-- C4 (code bug): same staleness slip as C3 in the priority phase.  The
stale priority-heap root carries the old access time of a deleted item
whose key was re-`Set`; the pop deletes that key's current (newest-access)
item.  Here `x` (access 5) and `y` (access 3) are both live, unexpired,
priority 1, yet the eviction removes `x` while `y` — strictly older access,
the claimed LRU victim — survives. -/
theorem claim_C4_lru_tiebreak_bug :
    tblGet (run 3 [Op.set 0 "x" 1 1 1, Op.get 2 "x", Op.set 3 "y" 2 1 100,
      Op.set 5 "x" 3 1 100, Op.setMax 6 1]).table "x" = none ∧
    tblGet (run 3 [Op.set 0 "x" 1 1 1, Op.get 2 "x", Op.set 3 "y" 2 1 100,
      Op.set 5 "x" 3 1 100, Op.setMax 6 1]).table "y" = some 1 ∧
    (getItem (run 3 [Op.set 0 "x" 1 1 1, Op.get 2 "x", Op.set 3 "y" 2 1 100,
      Op.set 5 "x" 3 1 100, Op.setMax 6 1]).store 1).priority
      = (getItem (run 3 [Op.set 0 "x" 1 1 1, Op.get 2 "x",
      Op.set 3 "y" 2 1 100, Op.set 5 "x" 3 1 100,
      Op.setMax 6 1]).store 2).priority ∧
    (getItem (run 3 [Op.set 0 "x" 1 1 1, Op.get 2 "x", Op.set 3 "y" 2 1 100,
      Op.set 5 "x" 3 1 100, Op.setMax 6 1]).store 1).access
      < (getItem (run 3 [Op.set 0 "x" 1 1 1, Op.get 2 "x",
      Op.set 3 "y" 2 1 100, Op.set 5 "x" 3 1 100,
      Op.setMax 6 1]).store 2).access ∧
    6 < (getItem (run 3 [Op.set 0 "x" 1 1 1, Op.get 2 "x",
      Op.set 3 "y" 2 1 100, Op.set 5 "x" 3 1 100,
      Op.setMax 6 1]).store 1).expire ∧
    6 < (getItem (run 3 [Op.set 0 "x" 1 1 1, Op.get 2 "x",
      Op.set 3 "y" 2 1 100, Op.set 5 "x" 3 1 100,
      Op.setMax 6 1]).store 2).expire := by decide

/-- C5 counterexample: the claim fails as stated because the `Set` call's
own eviction can remove the just-set key.  On a zero-capacity cache,
`Set "k" 5` is immediately evicted and `Get "k"` yields `-1`, not `5`. -/
theorem claim_C5_counterexample :
    ¬ (Get (Set (NewCache 0) 0 "k" 5 1 10) 0 "k").2 = 5 := by decide

/-- C5 amended: `Set(k, v, p, ttl)` with `ttl > 0` followed immediately by
`Get(k)` returns `v` with a found result (the key stays in the table),
provided the `Set` call itself did not evict `k`. -/
theorem claim_C5_roundtrip_amended (c : Cache) (now : Int) (k : String)
    (v pr ttl : Int) (tid : Nat) (hInv : Inv c) (ht : 0 < ttl)
    (hk : tblGet (Set c now k v pr ttl).table k = some tid) :
    (Get (Set c now k v pr ttl) now k).2 = v ∧
    tblGet (Get (Set c now k v pr ttl) now k).1.table k = some tid := by
  have hcore := Set_lookup c now k v pr ttl hInv tid hk
  have hval : (getItem (Set c now k v pr ttl).store tid).value = v :=
    congrArg (fun x => x.2.1) hcore
  have hexp : (getItem (Set c now k v pr ttl).store tid).expire
      = now + ttl := congrArg (fun x => x.2.2.2.2) hcore
  have hlt : now < (getItem (Set c now k v pr ttl).store tid).expire := by
    rw [hexp]
    omega
  constructor
  · simp [Get, hk, hlt, hval]
  · have hres : (Get (Set c now k v pr ttl) now k).1.table
        = (Set c now k v pr ttl).table := by
      simp [Get, hk, hlt]
    rw [hres]
    exact hk

/-- C5 witness: the amended round-trip at a concrete state. -/
theorem claim_C5_witness :
    Inv (NewCache 4) ∧ (0 : Int) < 10 ∧
    tblGet (Set (NewCache 4) 0 "k" 5 1 10).table "k" = some 0 ∧
    ((Get (Set (NewCache 4) 0 "k" 5 1 10) 0 "k").2 = 5 ∧
     tblGet (Get (Set (NewCache 4) 0 "k" 5 1 10) 0 "k").1.table "k"
       = some 0) :=
  ⟨by decide, by decide, by decide,
   claim_C5_roundtrip_amended (NewCache 4) 0 "k" 5 1 10 0 (by decide)
     (by decide) (by decide)⟩

/-- C6 counterexample: if the first `Set` call's eviction removes the key
(zero-capacity cache), the second identical `Set` re-inserts a fresh item
and pushes a fresh expiry-heap entry, so the expiry-heap length grows. -/
theorem claim_C6_counterexample :
    ¬ (Set (Set (NewCache 0) 0 "A" 1 1 1) 0 "A" 1 1 1).expiryQ.length
      = (Set (NewCache 0) 0 "A" 1 1 1).expiryQ.length := by decide

/-- C6 amended: calling `Set` twice with identical arguments leaves the
table size, priority-heap length and expiry-heap length unchanged,
provided the first call left the key in the table (then the second call
takes the in-place update path and pushes no new heap entries). -/
theorem claim_C6_idempotent_amended (c : Cache) (now now2 : Int)
    (k : String) (v pr t : Int) (hInv : Inv c)
    (hk : (tblGet (Set c now k v pr t).table k).isSome = true) :
    (Set (Set c now k v pr t) now2 k v pr t).table.length
      = (Set c now k v pr t).table.length ∧
    (Set (Set c now k v pr t) now2 k v pr t).priorityQ.length
      = (Set c now k v pr t).priorityQ.length ∧
    (Set (Set c now k v pr t) now2 k v pr t).expiryQ.length
      = (Set c now k v pr t).expiryQ.length := by
  obtain ⟨tid, htbl1⟩ := Option.isSome_iff_exists.mp hk
  have hok := Set_ok c now k v pr t hInv
  have hpos : 0 < (Set c now k v pr t).table.length :=
    List.length_pos.mpr (List.ne_nil_of_mem (mem_of_tblGet htbl1))
  have hcap : ((Set c now k v pr t).table.length : Int)
      ≤ (Set c now k v pr t).maxItems := by
    rcases le_or_lt c.maxItems 0 with hm | hm
    · exfalso
      have hb := hok.2.2
      rw [max_eq_left hm] at hb
      omega
    · have hb := hok.2.2
      rw [max_eq_right (le_of_lt hm)] at hb
      rw [hok.2.1]
      exact hb
  rw [Set_eq_update (Set c now k v pr t) now2 k v pr t tid htbl1]
  have hnoop : evictItems
      (setUpdState (Set c now k v pr t) now2 k v pr t tid) now2
      = setUpdState (Set c now k v pr t) now2 k v pr t tid := by
    apply evictItems_noop
    rw [setUpdState_table, setUpdState_maxItems]
    exact hcap
  rw [hnoop]
  exact ⟨by rw [setUpdState_table], setUpdState_pq_len _ _ _ _ _ _ _,
    setUpdState_eq_len _ _ _ _ _ _ _⟩

/-- C6 witness: the amended idempotence at a concrete state. -/
theorem claim_C6_witness :
    Inv (NewCache 3) ∧
    (tblGet (Set (NewCache 3) 0 "A" 7 2 9).table "A").isSome = true ∧
    ((Set (Set (NewCache 3) 0 "A" 7 2 9) 0 "A" 7 2 9).table.length
       = (Set (NewCache 3) 0 "A" 7 2 9).table.length ∧
     (Set (Set (NewCache 3) 0 "A" 7 2 9) 0 "A" 7 2 9).priorityQ.length
       = (Set (NewCache 3) 0 "A" 7 2 9).priorityQ.length ∧
     (Set (Set (NewCache 3) 0 "A" 7 2 9) 0 "A" 7 2 9).expiryQ.length
       = (Set (NewCache 3) 0 "A" 7 2 9).expiryQ.length) :=
  ⟨by decide, by decide,
   claim_C6_idempotent_amended (NewCache 3) 0 0 "A" 7 2 9 (by decide)
     (by decide)⟩

/-- C7 counterexample: under capacity pressure the just-set key itself can
be the eviction victim.  With capacity 1 and an unexpired priority-10
resident, `Set "B"` with priority 1 inserts `B` and then phase 2
immediately evicts it: `B` is absent when its own `Set` call returns. -/
theorem claim_C7_counterexample :
    tblGet (Set (Set (NewCache 1) 0 "A" 1 10 100) 0 "B" 2 1 100).table "B"
      = none := by decide

/-- C7 amended: the key passed to `Set` is still present when the call
returns, provided the table is within capacity after the insert/update
step (so the call's eviction is a no-op); under capacity pressure the
just-set key may itself be evicted when it is the eviction candidate. -/
theorem claim_C7_set_keeps_key_amended (c : Cache) (now : Int) (k : String)
    (v pr t : Int)
    (hcap : ((if (tblGet c.table k).isSome then c.table.length
      else c.table.length + 1 : Nat) : Int) ≤ c.maxItems) :
    (tblGet (Set c now k v pr t).table k).isSome = true := by
  rcases htbl : tblGet c.table k with _ | tid
  · rw [htbl] at hcap
    simp only [Option.isSome_none, Bool.false_eq_true, if_false] at hcap
    rw [Set_eq_insert c now k v pr t htbl]
    have hlen : (setInsertState c now k v pr t).table.length
        = c.table.length + 1 := by
      rw [setInsertState_table]
      simp [tblSet, tblDel_eq_self_of_none htbl]
    have hnoop := evictItems_noop (setInsertState c now k v pr t) now
      (by rw [hlen, setInsertState_maxItems]
          exact_mod_cast hcap)
    rw [hnoop, setInsertState_table, tblGet_tblSet_self]
    rfl
  · rw [htbl] at hcap
    simp only [Option.isSome_some, if_true] at hcap
    rw [Set_eq_update c now k v pr t tid htbl]
    have hnoop := evictItems_noop (setUpdState c now k v pr t tid) now
      (by rw [setUpdState_table, setUpdState_maxItems]
          exact_mod_cast hcap)
    rw [hnoop, setUpdState_table, htbl]
    rfl

/-- C7 witness: the amended key-retention at a concrete state. -/
theorem claim_C7_witness :
    (((if (tblGet (NewCache 2).table "A").isSome
        then (NewCache 2).table.length
        else (NewCache 2).table.length + 1 : Nat) : Int)
      ≤ (NewCache 2).maxItems) ∧
    (tblGet (Set (NewCache 2) 0 "A" 1 1 5).table "A").isSome = true :=
  ⟨by decide, claim_C7_set_keeps_key_amended (NewCache 2) 0 "A" 1 1 5
    (by decide)⟩

/-- C8: `Get` signals not-found both for an absent key and for an expired
one; the expired case deletes the key from the table but leaves both heaps
and the arena untouched, and the caller-visible result is the same `-1`
in both cases. -/
theorem claim_C8_get_not_found (c : Cache) (now : Int) (k : String) :
    (tblGet c.table k = none → Get c now k = (c, -1)) ∧
    (∀ tid, tblGet c.table k = some tid →
      (getItem c.store tid).expire ≤ now →
      Get c now k = ({ c with table := tblDel c.table k }, -1)) := by
  constructor
  · intro h
    simp [Get, h]
  · intro tid h hexp
    have hlt : ¬ now < (getItem c.store tid).expire := by omega
    simp [Get, h, hlt]

/-- C8 witness: both not-found paths at concrete inputs. -/
theorem claim_C8_witness :
    Get (NewCache 5) 0 "z" = (NewCache 5, -1) ∧
    Get (Set (NewCache 5) 0 "x" 7 1 3) 5 "x"
      = ({ Set (NewCache 5) 0 "x" 7 1 3 with
           table := tblDel (Set (NewCache 5) 0 "x" 7 1 3).table "x" }, -1) :=
  ⟨(claim_C8_get_not_found (NewCache 5) 0 "z").1 (by decide),
   (claim_C8_get_not_found (Set (NewCache 5) 0 "x" 7 1 3) 5 "x").2 0
     (by decide) (by decide)⟩

/-- C9: `Get` signals not-found by returning `-1` with no separate found
flag, so a stored value of `-1` on a live key is indistinguishable from a
miss: here `"k"` is live (present, unexpired) yet `Get` returns the same
`-1` as for the absent key. -/
theorem claim_C9_neg_one_sentinel :
    (Get (Set (NewCache 5) 0 "k" (-1) 1 10) 0 "k").2 = -1 ∧
    (Get (Set (NewCache 5) 0 "k" (-1) 1 10) 0 "absent").2 = -1 ∧
    tblGet (Set (NewCache 5) 0 "k" (-1) 1 10).table "k" = some 0 ∧
    tblGet (Set (NewCache 5) 0 "k" (-1) 1 10).table "absent" = none ∧
    0 < (getItem (Set (NewCache 5) 0 "k" (-1) 1 10).store 0).expire := by
  decide

/-- C10 counterexample: a freshly set negative-ttl key need not be the
FIRST expiry-phase candidate: with two expired items, the earlier-expiring
resident `"a"` is evicted first and the just-set `"b"` survives the very
capacity pressure its own call created. -/
theorem claim_C10_counterexample :
    tblGet (Set (Set (NewCache 1) 0 "a" 1 1 (-10)) 0 "b" 2 1 (-5)).table "a"
      = none ∧
    tblGet (Set (Set (NewCache 1) 0 "a" 1 1 (-10)) 0 "b" 2 1 (-5)).table "b"
      = some 1 ∧
    (getItem (Set (Set (NewCache 1) 0 "a" 1 1 (-10)) 0 "b" 2 1
      (-5)).store 1).expire < 0 := by decide

/-- C10 amended: `Set` is total over negative ttl: it stores an item whose
expire time is strictly before `now` (when the key survives the call), and
an immediately following `Get` returns not-found and leaves the key
absent.  No general phase-ordering holds for such an item beyond this: the
two closing concrete scenarios show, first, a run where phase 1 evicts the
top-priority negative-ttl item while low-priority unexpired `"good"`
survives, and second, a run (after a stale-root aliasing prefix as in C3)
where phase 1 makes no progress — the expiry heap keeps all five entries —
and the just-set expired `"w"` is instead evicted by the priority phase
while the expired resident `"A"` stays. -/
theorem claim_C10_negative_ttl_amended (c : Cache) (now : Int)
    (k : String) (v pr ttl : Int) (hInv : Inv c) (ht : ttl < 0) :
    (∀ tid, tblGet (Set c now k v pr ttl).table k = some tid →
      (getItem (Set c now k v pr ttl).store tid).expire < now) ∧
    (Get (Set c now k v pr ttl) now k).2 = -1 ∧
    tblGet (Get (Set c now k v pr ttl) now k).1.table k = none ∧
    (tblGet (SetMaxItems (Set (Set (NewCache 2) 0 "good" 1 1 100) 0 "bad"
        2 100 (-5)) 0 1).table "bad" = none ∧
     (tblGet (SetMaxItems (Set (Set (NewCache 2) 0 "good" 1 1 100) 0 "bad"
        2 100 (-5)) 0 1).table "good").isSome = true) ∧
    (tblGet (run 3 [Op.set 0 "x" 1 100 1, Op.set 0 "A" 2 100 5,
        Op.set 0 "B" 3 1 100, Op.get 2 "x", Op.set 2 "x" 4 100 100,
        Op.set 6 "w" 9 0 (-5)]).table "w" = none ∧
     tblGet (run 3 [Op.set 0 "x" 1 100 1, Op.set 0 "A" 2 100 5,
        Op.set 0 "B" 3 1 100, Op.get 2 "x", Op.set 2 "x" 4 100 100,
        Op.set 6 "w" 9 0 (-5)]).table "A" = some 1 ∧
     (getItem (run 3 [Op.set 0 "x" 1 100 1, Op.set 0 "A" 2 100 5,
        Op.set 0 "B" 3 1 100, Op.get 2 "x", Op.set 2 "x" 4 100 100,
        Op.set 6 "w" 9 0 (-5)]).store 1).expire ≤ 6 ∧
     (getItem (run 3 [Op.set 0 "x" 1 100 1, Op.set 0 "A" 2 100 5,
        Op.set 0 "B" 3 1 100, Op.get 2 "x", Op.set 2 "x" 4 100 100,
        Op.set 6 "w" 9 0 (-5)]).store 4).key = "w" ∧
     (getItem (run 3 [Op.set 0 "x" 1 100 1, Op.set 0 "A" 2 100 5,
        Op.set 0 "B" 3 1 100, Op.get 2 "x", Op.set 2 "x" 4 100 100,
        Op.set 6 "w" 9 0 (-5)]).store 4).expire < 6 ∧
     (run 3 [Op.set 0 "x" 1 100 1, Op.set 0 "A" 2 100 5,
        Op.set 0 "B" 3 1 100, Op.get 2 "x", Op.set 2 "x" 4 100 100,
        Op.set 6 "w" 9 0 (-5)]).expiryQ.length = 5 ∧
     (run 3 [Op.set 0 "x" 1 100 1, Op.set 0 "A" 2 100 5,
        Op.set 0 "B" 3 1 100, Op.get 2 "x", Op.set 2 "x" 4 100 100,
        Op.set 6 "w" 9 0 (-5)]).priorityQ.length = 4) := by
  refine ⟨?_, ?_, ?_, by decide, by decide⟩
  · intro tid h
    have hcore := Set_lookup c now k v pr ttl hInv tid h
    have hexp : (getItem (Set c now k v pr ttl).store tid).expire
        = now + ttl := congrArg (fun x => x.2.2.2.2) hcore
    rw [hexp]
    omega
  · rcases hk : tblGet (Set c now k v pr ttl).table k with _ | tid
    · simp [Get, hk]
    · have hcore := Set_lookup c now k v pr ttl hInv tid hk
      have hexp : (getItem (Set c now k v pr ttl).store tid).expire
          = now + ttl := congrArg (fun x => x.2.2.2.2) hcore
      have hlt : ¬ now < (getItem (Set c now k v pr ttl).store tid).expire := by
        rw [hexp]
        omega
      simp [Get, hk, hlt]
  · rcases hk : tblGet (Set c now k v pr ttl).table k with _ | tid
    · simp [Get, hk]
    · have hcore := Set_lookup c now k v pr ttl hInv tid hk
      have hexp : (getItem (Set c now k v pr ttl).store tid).expire
          = now + ttl := congrArg (fun x => x.2.2.2.2) hcore
      have hlt : ¬ now < (getItem (Set c now k v pr ttl).store tid).expire := by
        rw [hexp]
        omega
      simp [Get, hk, hlt, tblGet_tblDel_self]

/-- C10 witness: the amended negative-ttl behaviour at a concrete state. -/
theorem claim_C10_witness :
    Inv (NewCache 3) ∧ ((-4 : Int) < 0) ∧
    ((∀ tid, tblGet (Set (NewCache 3) 0 "w" 1 1 (-4)).table "w" = some tid →
       (getItem (Set (NewCache 3) 0 "w" 1 1 (-4)).store tid).expire < 0) ∧
     (Get (Set (NewCache 3) 0 "w" 1 1 (-4)) 0 "w").2 = -1 ∧
     tblGet (Get (Set (NewCache 3) 0 "w" 1 1 (-4)) 0 "w").1.table "w"
       = none ∧
     (tblGet (SetMaxItems (Set (Set (NewCache 2) 0 "good" 1 1 100) 0 "bad"
        2 100 (-5)) 0 1).table "bad" = none ∧
      (tblGet (SetMaxItems (Set (Set (NewCache 2) 0 "good" 1 1 100) 0 "bad"
        2 100 (-5)) 0 1).table "good").isSome = true) ∧
     (tblGet (run 3 [Op.set 0 "x" 1 100 1, Op.set 0 "A" 2 100 5,
        Op.set 0 "B" 3 1 100, Op.get 2 "x", Op.set 2 "x" 4 100 100,
        Op.set 6 "w" 9 0 (-5)]).table "w" = none ∧
      tblGet (run 3 [Op.set 0 "x" 1 100 1, Op.set 0 "A" 2 100 5,
        Op.set 0 "B" 3 1 100, Op.get 2 "x", Op.set 2 "x" 4 100 100,
        Op.set 6 "w" 9 0 (-5)]).table "A" = some 1 ∧
      (getItem (run 3 [Op.set 0 "x" 1 100 1, Op.set 0 "A" 2 100 5,
        Op.set 0 "B" 3 1 100, Op.get 2 "x", Op.set 2 "x" 4 100 100,
        Op.set 6 "w" 9 0 (-5)]).store 1).expire ≤ 6 ∧
      (getItem (run 3 [Op.set 0 "x" 1 100 1, Op.set 0 "A" 2 100 5,
        Op.set 0 "B" 3 1 100, Op.get 2 "x", Op.set 2 "x" 4 100 100,
        Op.set 6 "w" 9 0 (-5)]).store 4).key = "w" ∧
      (getItem (run 3 [Op.set 0 "x" 1 100 1, Op.set 0 "A" 2 100 5,
        Op.set 0 "B" 3 1 100, Op.get 2 "x", Op.set 2 "x" 4 100 100,
        Op.set 6 "w" 9 0 (-5)]).store 4).expire < 6 ∧
      (run 3 [Op.set 0 "x" 1 100 1, Op.set 0 "A" 2 100 5,
        Op.set 0 "B" 3 1 100, Op.get 2 "x", Op.set 2 "x" 4 100 100,
        Op.set 6 "w" 9 0 (-5)]).expiryQ.length = 5 ∧
      (run 3 [Op.set 0 "x" 1 100 1, Op.set 0 "A" 2 100 5,
        Op.set 0 "B" 3 1 100, Op.get 2 "x", Op.set 2 "x" 4 100 100,
        Op.set 6 "w" 9 0 (-5)]).priorityQ.length = 4)) :=
  ⟨by decide, by decide,
   claim_C10_negative_ttl_amended (NewCache 3) 0 "w" 1 1 (-4) (by decide)
     (by decide)⟩

end Lru
